import Mathlib

/-!
Verification of the `MPModelProto` exporter
(`src/linear_solver/model_exporter.cc` of or-tools): the LP-format and
MPS-format text renderers, shallowly embedded in Lean.

Numeric embedding: C++ `double` values are modelled as extended rationals
(`XRat`): finite rationals plus `-inf`, `+inf` and `NaN`, compared with the
IEEE-style equality `xeq` (on which `NaN` differs from everything, and the
infinities are equal to themselves).  `printf`-style number rendering
(`%G`, `%f`) is modelled by decimal rendering of rationals; the rendering is
exact on values whose decimal form is short, which covers every value the
settled claims exercise (small integers).  Strings are `String`, with lengths
counted in characters (the exporter only emits ASCII).
-/

namespace ModelExporter

/-- Extended rationals: the embedding of C++ `double`. -/
inductive XRat where
  | ninf
  | fin (q : Rat)
  | inf
  | nan
deriving DecidableEq

/-- IEEE-style equality on embedded doubles (`==` on `double` in the source):
`NaN` is not equal to anything, each infinity is equal to itself. -/
def xeq : XRat → XRat → Bool
  | .nan, _ => false
  | _, .nan => false
  | .ninf, .ninf => true
  | .inf, .inf => true
  | .fin a, .fin b => a == b
  | _, _ => false

/-- Floor of a rational, by integer floor-division of numerator by
denominator (kernel-computable). -/
def ratFloor (q : Rat) : Int := Int.fdiv q.num q.den

/-- Ceiling of a rational (kernel-computable). -/
def ratCeil (q : Rat) : Int := -(Int.fdiv (-q.num) q.den)

/-- Exact subtraction of rationals via numerators and denominators
(kernel-computable; `mkRat` normalizes). -/
def ratSub (a b : Rat) : Rat :=
  mkRat (a.num * b.den - b.num * a.den) (a.den * b.den)

/-- Absolute value of a rational (kernel-computable). -/
def ratAbs (q : Rat) : Rat := if q.num < 0 then Rat.neg q else q

/-- `ceil` on embedded doubles. -/
def xceil : XRat → XRat
  | .fin q => .fin (ratCeil q : Int)
  | x => x

/-- `floor` on embedded doubles. -/
def xfloor : XRat → XRat
  | .fin q => .fin (ratFloor q : Int)
  | x => x

/-- C `round`: rounding half away from zero (finite case);
`q + 1/2 = (2 num + den) / (2 den)`. -/
def ratRoundAway (q : Rat) : Int :=
  if 0 ≤ q.num then Int.fdiv (2 * q.num + q.den) (2 * q.den)
  else -(Int.fdiv (-(2 * q.num) + q.den) (2 * q.den))

/-- `round` on embedded doubles. -/
def xround : XRat → XRat
  | .fin q => .fin (ratRoundAway q : Int)
  | x => x

/-- Subtraction on embedded doubles (IEEE rules; `inf - inf = NaN`). -/
def xsub : XRat → XRat → XRat
  | .nan, _ => .nan
  | _, .nan => .nan
  | .inf, .inf => .nan
  | .ninf, .ninf => .nan
  | .inf, _ => .inf
  | .ninf, _ => .ninf
  | .fin _, .inf => .ninf
  | .fin _, .ninf => .inf
  | .fin a, .fin b => .fin (ratSub a b)

/-- `fabs` on embedded doubles. -/
def xabs : XRat → XRat
  | .ninf => .inf
  | .inf => .inf
  | .nan => .nan
  | .fin q => .fin (ratAbs q)

/-- Is the value strictly negative (used for the `%+` sign flag)? -/
def xneg : XRat → Bool
  | .ninf => true
  | .fin q => decide (q.num < 0)
  | _ => false

/-! ### Decimal rendering of naturals and rationals -/

/-- The decimal digit character for `d < 10`. -/
def digitChar (d : Nat) : Char := Char.ofNat (48 + d)

/-- Fuel-bounded digit expansion (structural recursion so that concrete
values reduce in the kernel); `fuel > n` always suffices. -/
def natDigitsGo (fuel : Nat) (n : Nat) : List Char :=
  match fuel with
  | 0 => []
  | fuel+1 =>
    if n < 10 then [digitChar n]
    else natDigitsGo fuel (n / 10) ++ [digitChar (n % 10)]

/-- The decimal digits of a natural number, most significant first
(the embedding of `StringPrintf("%d", n)` for non-negative `n`). -/
def natDigits (n : Nat) : List Char := natDigitsGo (n + 1) n

/-- `StringPrintf("%d", n)` for a natural number. -/
def natToString (n : Nat) : String := String.mk (natDigits n)

/-- `StringPrintf("%d", i)` for an integer. -/
def intToString (i : Int) : String :=
  if i < 0 then "-" ++ natToString i.natAbs else natToString i.toNat

/-- Right-pad a string with spaces to width `n` (`printf "%-<n>s"`;
longer strings are kept whole). -/
def padRight (n : Nat) (s : String) : String :=
  s ++ String.mk (List.replicate (n - s.data.length) ' ')

/-- Left-pad a string with spaces to width `n` (`printf "%<n>s"`). -/
def padLeft (n : Nat) (s : String) : String :=
  String.mk (List.replicate (n - s.data.length) ' ') ++ s

/-- Left-pad a digit string with zeros to width `w` (`printf "%0*d"`). -/
def zeroPad (w : Nat) (s : String) : String :=
  String.mk (List.replicate (w - s.data.length) '0') ++ s

/-- Drop trailing `'0'` characters. -/
def trimZerosRight (s : String) : String :=
  String.mk (s.data.reverse.dropWhile (fun c => c == '0')).reverse

/-- The embedding of `printf "%.<prec>G"` on an embedded double.  Exact for
integers (rendered as plain decimal digits) and for rationals with a short
terminating decimal expansion; scientific notation and round-to-precision of
over-long values are not modelled (no settled claim exercises them). -/
def formatG (prec : Nat) (x : XRat) : String :=
  match x with
  | .ninf => "-INF"
  | .inf => "INF"
  | .nan => "NAN"
  | .fin q =>
    let sign := if q.num < 0 then "-" else ""
    let n := q.num.natAbs
    if q.den = 1 then sign ++ natToString n
    else
      let ip := n / q.den
      let ipStr := natToString ip
      let fracLen := prec - ipStr.data.length
      let scaled := n * 10 ^ fracLen / q.den % 10 ^ fracLen
      let fracStr := trimZerosRight (zeroPad fracLen (natToString scaled))
      sign ++ ipStr ++ (if fracStr.data.isEmpty then "" else "." ++ fracStr)

/-- `printf "%+.16G"`: like `formatG 16` with an explicit sign for
non-negative values. -/
def formatPlusG (x : XRat) : String :=
  if xneg x then formatG 16 x else "+" ++ formatG 16 x

/-- C rounding half to even (used by `printf "%.0f"`; finite case).
With `n = floor q` and `m = num - n * den`, the fractional part is `m / den`;
it is below / above one half according as `2 m` vs `den`. -/
def ratRoundEven (q : Rat) : Int :=
  let n := ratFloor q
  let m := q.num - n * q.den
  if 2 * m < (q.den : Int) then n
  else if (q.den : Int) < 2 * m then n + 1
  else if n % 2 = 0 then n else n + 1

/-- The embedding of `printf "%.0f"` on an embedded double. -/
def formatF0 : XRat → String
  | .ninf => "-inf"
  | .inf => "inf"
  | .nan => "nan"
  | .fin q => intToString (ratRoundEven q)

/-! ### The protocol-buffer model (read-only input of the exporter) -/

/-- `MPVariableProto`: `name = none` models an unset (`!has_name()`) field. -/
structure MPVariableProto where
  name : Option String
  lower_bound : XRat
  upper_bound : XRat
  is_integer : Bool
  objective_coefficient : XRat
deriving DecidableEq

/-- `MPConstraintProto`; the parallel repeated fields `var_index` /
`coefficient` are modelled as one list of pairs (`terms`). -/
structure MPConstraintProto where
  name : Option String
  lower_bound : XRat
  upper_bound : XRat
  terms : List (Int × XRat)
deriving DecidableEq

/-- `MPModelProto`. -/
structure MPModelProto where
  name : Option String
  maximize : Bool
  objective_offset : XRat
  vars : List MPVariableProto
  constraints : List MPConstraintProto
deriving DecidableEq

/-! ### Exporter flags (modelled at their default values) and mutable state -/

/-- `FLAGS_lp_shows_unused_variables` (default `false`). -/
def lp_shows_unused_variables : Bool := false

/-- `FLAGS_lp_max_line_length` (default `10000`). -/
def lp_max_line_length : Nat := 10000

/-- The mutable members of `MPModelProtoExporter`. -/
structure ExporterState where
  num_integer_variables : Nat
  num_binary_variables : Nat
  num_continuous_variables : Nat
  num_digits_for_variables : Nat
  num_digits_for_constraints : Nat
  current_mps_column : Nat
  use_fixed_mps_format : Bool
  use_obfuscated_names : Bool
  setup_done : Bool
deriving DecidableEq

/-- The state of a freshly constructed `MPModelProtoExporter`. -/
def initState : ExporterState :=
  { num_integer_variables := 0
    num_binary_variables := 0
    num_continuous_variables := 0
    num_digits_for_variables := 0
    num_digits_for_constraints := 0
    current_mps_column := 0
    use_fixed_mps_format := false
    use_obfuscated_names := false
    setup_done := false }

/-! ### Name validation and display names -/

/-- The characters forbidden anywhere in a name. -/
def kForbiddenChars : List Char := (" +-*/<>=:\\").data

/-- The characters forbidden as the first character of a name. -/
def kForbiddenFirstChars : List Char := ("$.0123456789").data

/-- `MPModelProtoExporter::CheckNameValidity`. -/
def CheckNameValidity (name : String) : Bool :=
  if name.data.isEmpty then false
  else if 255 < name.data.length then false
  else if name.data.any (fun c => kForbiddenChars.contains c) then false
  else if kForbiddenFirstChars.contains (name.data.headD ' ') then false
  else true

/-- `MPModelProtoExporter::GetVariableName`; the proto lookup
`proto_.variable(var_index)` is passed in as `var_proto`. -/
def GetVariableName (st : ExporterState) (var_index : Nat)
    (var_proto : MPVariableProto) : String :=
  if st.use_obfuscated_names || var_proto.name.isNone then
    "V" ++ zeroPad st.num_digits_for_variables (natToString var_index)
  else var_proto.name.getD ("")

/-- `GetVariableName` with the lookup done explicitly. -/
def GetVariableNameIdx (proto : MPModelProto) (st : ExporterState)
    (var_index : Nat) : String :=
  match proto.vars.get? var_index with
  | some v => GetVariableName st var_index v
  | none => ""

/-- `MPModelProtoExporter::GetConstraintName`; the proto lookup is passed in. -/
def GetConstraintName (st : ExporterState) (cst_index : Nat)
    (ct_proto : MPConstraintProto) : String :=
  if st.use_obfuscated_names || ct_proto.name.isNone then
    "C" ++ zeroPad st.num_digits_for_constraints (natToString cst_index)
  else ct_proto.name.getD ("")

/-- `GetConstraintName` with the lookup done explicitly. -/
def GetConstraintNameIdx (proto : MPModelProto) (st : ExporterState)
    (cst_index : Nat) : String :=
  match proto.constraints.get? cst_index with
  | some ct => GetConstraintName st cst_index ct
  | none => ""

/-- `MPModelProtoExporter::AppendComments`. -/
def AppendComments (proto : MPModelProto) (st : ExporterState)
    (separator : String) : String :=
  separator ++ " Generated by MPModelProtoExporter\n" ++
  separator ++ "   " ++ padRight 16 ("Name") ++ " : " ++
    (match proto.name with | some n => n | none => "NoName") ++ "\n" ++
  separator ++ "   " ++ padRight 16 ("Format") ++ " : " ++
    (if st.use_fixed_mps_format then "Fixed" else "Free") ++ "\n" ++
  separator ++ "   " ++ padRight 16 ("Constraints") ++ " : " ++
    natToString proto.constraints.length ++ "\n" ++
  separator ++ "   " ++ padRight 16 ("Variables") ++ " : " ++
    natToString proto.vars.length ++ "\n" ++
  separator ++ "     " ++ padRight 14 ("Binary") ++ " : " ++
    natToString st.num_binary_variables ++ "\n" ++
  separator ++ "     " ++ padRight 14 ("Integer") ++ " : " ++
    natToString st.num_integer_variables ++ "\n" ++
  separator ++ "     " ++ padRight 14 ("Continuous") ++ " : " ++
    natToString st.num_continuous_variables ++ "\n" ++
  (if lp_shows_unused_variables then
    separator ++ " Unused variables are shown\n" else "")

/-! ### LineBreaker -/

/-- `LineBreaker`: token accumulator that word-wraps at `max_line_size`. -/
structure LineBreaker where
  max_line_size : Nat
  line_size : Nat
  output : String
deriving DecidableEq

/-- `LineBreaker::Append`: add a token, inserting a line break (newline and
one leading space) first if the running count would exceed the maximum; the
token itself is never split. -/
def LineBreaker.Append (b : LineBreaker) (s : String) : LineBreaker :=
  let ls := b.line_size + s.data.length
  if b.max_line_size < ls then
    { b with line_size := s.data.length, output := b.output ++ "\n " ++ s }
  else
    { b with line_size := ls, output := b.output ++ s }

/-- `LineBreaker::WillFit`. -/
def LineBreaker.WillFit (b : LineBreaker) (s : String) : Bool :=
  decide (b.line_size + s.data.length < b.max_line_size)

/-- `LineBreaker::Consume`. -/
def LineBreaker.Consume (b : LineBreaker) (size : Nat) : LineBreaker :=
  { b with line_size := b.line_size + size }

/-- `LineBreaker::GetOutput`. -/
def LineBreaker.GetOutput (b : LineBreaker) : String := b.output

/-- Feed a sequence of tokens to `LineBreaker::Append`. -/
def LineBreaker.AppendAll (b : LineBreaker) : List String → LineBreaker
  | [] => b
  | s :: rest => (b.Append s).AppendAll rest

/-! ### LP-format writer -/

/-- `MPModelProtoExporter::WriteLpTerm`: `none` models returning `false`
(out-of-range variable index); the range check precedes the
zero-coefficient test, exactly as in the source. -/
def WriteLpTerm (proto : MPModelProto) (st : ExporterState) (var_index : Int)
    (coefficient : XRat) : Option String :=
  if var_index < 0 ∨ (proto.vars.length : Int) ≤ var_index then none
  else some (if xeq coefficient (.fin 0) then ""
    else formatPlusG coefficient ++ " " ++
      GetVariableNameIdx proto st var_index.toNat ++ " ")

/-- `IsBoolean`: integer with rounded bounds exactly `[0, 1]`. -/
def IsBoolean (var : MPVariableProto) : Bool :=
  var.is_integer && xeq (xceil var.lower_bound) (.fin 0) &&
    xeq (xfloor var.upper_bound) (.fin 1)

/-- `MPModelProtoExporter::Setup`: computes the digit widths and the
binary / integer / continuous counts (always succeeds). -/
def Setup (proto : MPModelProto) (st : ExporterState) : ExporterState :=
  { st with
    num_digits_for_constraints := (natToString proto.constraints.length).data.length
    num_digits_for_variables := (natToString proto.vars.length).data.length
    num_binary_variables := (proto.vars.filter (fun v => IsBoolean v)).length
    num_integer_variables :=
      (proto.vars.filter (fun v => v.is_integer && !IsBoolean v)).length
    num_continuous_variables :=
      proto.vars.length - (proto.vars.filter (fun v => IsBoolean v)).length -
        (proto.vars.filter (fun v => v.is_integer && !IsBoolean v)).length }

/-- The variable half of `CheckAllNamesValidity` (loop counter explicit). -/
def CheckVarNames (st : ExporterState) : Nat → List MPVariableProto → Bool
  | _, [] => true
  | i, v :: rest =>
    CheckNameValidity (GetVariableName st i v) && CheckVarNames st (i+1) rest

/-- The constraint half of `CheckAllNamesValidity`. -/
def CheckCstNames (st : ExporterState) : Nat → List MPConstraintProto → Bool
  | _, [] => true
  | i, ct :: rest =>
    CheckNameValidity (GetConstraintName st i ct) && CheckCstNames st (i+1) rest

/-- `MPModelProtoExporter::CheckAllNamesValidity`. -/
def CheckAllNamesValidity (proto : MPModelProto) (st : ExporterState) : Bool :=
  CheckVarNames st 0 proto.vars && CheckCstNames st 0 proto.constraints

/-- The objective-term loop of `ExportModelAsLpFormat` (lines 253-261). -/
def LpObjectiveLoop (proto : MPModelProto) (st : ExporterState) :
    Nat → List MPVariableProto → LineBreaker → List Bool →
    Option (LineBreaker × List Bool)
  | _, [], brk, sv => some (brk, sv)
  | i, v :: rest, brk, sv =>
    match WriteLpTerm proto st (i : Int) v.objective_coefficient with
    | none => none
    | some term =>
      LpObjectiveLoop proto st (i+1) rest (brk.Append term)
        (sv.set i (!(xeq v.objective_coefficient (.fin 0)) ||
          lp_shows_unused_variables))

/-- The per-constraint term loop of `ExportModelAsLpFormat` (lines 272-282). -/
def LpTermsLoop (proto : MPModelProto) (st : ExporterState) :
    List (Int × XRat) → LineBreaker → List Bool →
    Option (LineBreaker × List Bool)
  | [], brk, sv => some (brk, sv)
  | (vi, coeff) :: rest, brk, sv =>
    match WriteLpTerm proto st vi coeff with
    | none => none
    | some term =>
      LpTermsLoop proto st rest (brk.Append term)
        (sv.set vi.toNat (!(xeq coeff (.fin 0)) || lp_shows_unused_variables))

/-- One constraint of the LP `Subject to` section (lines 264-312):
`none` models aborting on an out-of-range variable reference. -/
def LpConstraintSection (proto : MPModelProto) (st : ExporterState)
    (cst_index : Nat) (ct : MPConstraintProto) (sv : List Bool) :
    Option (String × List Bool) :=
  let name := GetConstraintName st cst_index ct
  let brk0 : LineBreaker :=
    { max_line_size := lp_max_line_length, line_size := 0, output := "" }
  let brk1 := brk0.Consume (10 + name.data.length)
  match LpTermsLoop proto st ct.terms brk1 sv with
  | none => none
  | some (brk, sv2) =>
    if xeq ct.lower_bound ct.upper_bound then
      let brk2 := brk.Append (" = " ++ formatG 16 ct.upper_bound ++ "\n")
      some (" " ++ name ++ ": " ++ brk2.GetOutput, sv2)
    else
      let part1 :=
        if !(xeq ct.upper_bound .inf) then
          let rhs_name :=
            if !(xeq ct.lower_bound .ninf) then name ++ "_rhs" else name
          let relation := " <= " ++ formatG 16 ct.upper_bound ++ "\n"
          " " ++ rhs_name ++ ": " ++ brk.GetOutput ++
            (if !(brk.WillFit relation) then "\n " else "") ++ relation
        else ""
      let part2 :=
        if !(xeq ct.lower_bound .ninf) then
          let lhs_name :=
            if !(xeq ct.upper_bound .inf) then name ++ "_lhs" else name
          let relation := " >= " ++ formatG 16 ct.lower_bound ++ "\n"
          " " ++ lhs_name ++ ": " ++ brk.GetOutput ++
            (if !(brk.WillFit relation) then "\n " else "") ++ relation
        else ""
      some (part1 ++ part2, sv2)

/-- The constraint loop of `ExportModelAsLpFormat`; on failure the output
accumulated so far is kept (the C++ `*output` is not cleared). -/
def LpConstraintsLoop (proto : MPModelProto) (st : ExporterState) :
    Nat → List MPConstraintProto → String → List Bool →
    Bool × String × List Bool
  | _, [], out, sv => (true, out, sv)
  | i, ct :: rest, out, sv =>
    match LpConstraintSection proto st i ct sv with
    | none => (false, out, sv)
    | some (block, sv2) => LpConstraintsLoop proto st (i+1) rest (out ++ block) sv2

/-- One line of the LP `Bounds` section (lines 321-336), for a shown
variable. -/
def LpBoundsLine (st : ExporterState) (var_index : Nat)
    (v : MPVariableProto) : String :=
  if v.is_integer && xeq v.lower_bound (xround v.lower_bound) &&
      xeq v.upper_bound (xround v.upper_bound) then
    " " ++ formatF0 v.lower_bound ++ " <= " ++ GetVariableName st var_index v ++
      " <= " ++ formatF0 v.upper_bound ++ "\n"
  else
    (if !(xeq v.lower_bound .ninf) then
      " " ++ formatG 16 v.lower_bound ++ " <= " else "") ++
    GetVariableName st var_index v ++
    (if !(xeq v.upper_bound .inf) then
      " <= " ++ formatG 16 v.upper_bound else "") ++ "\n"

/-- The LP `Bounds` section loop (only shown variables emit a line). -/
def LpBoundsSection (st : ExporterState) :
    Nat → List MPVariableProto → List Bool → String
  | _, [], _ => ""
  | i, v :: rest, sv =>
    (if sv.getD i false then LpBoundsLine st i v else "") ++
      LpBoundsSection st (i+1) rest sv

/-- The LP `Binaries` section loop. -/
def LpBinariesSection (st : ExporterState) :
    Nat → List MPVariableProto → List Bool → String
  | _, [], _ => ""
  | i, v :: rest, sv =>
    (if sv.getD i false && IsBoolean v then
      " " ++ GetVariableName st i v ++ "\n" else "") ++
      LpBinariesSection st (i+1) rest sv

/-- The LP `Generals` section loop. -/
def LpGeneralsSection (st : ExporterState) :
    Nat → List MPVariableProto → List Bool → String
  | _, [], _ => ""
  | i, v :: rest, sv =>
    (if sv.getD i false && (v.is_integer && !IsBoolean v) then
      " " ++ GetVariableName st i v ++ "\n" else "") ++
      LpGeneralsSection st (i+1) rest sv

/-- The objective-line breaker after the ` Obj: ` prefix and the optional
`Constant` offset term (lines 245-250). -/
def lpObjInitBreaker (proto : MPModelProto) : LineBreaker :=
  let brk0 : LineBreaker :=
    { max_line_size := lp_max_line_length, line_size := 0, output := "" }
  let brk1 := brk0.Append (" Obj: ")
  if !(xeq proto.objective_offset (.fin 0)) then
    brk1.Append (formatPlusG proto.objective_offset ++ " Constant ")
  else brk1

/-- The rendering body of `ExportModelAsLpFormat` (everything after the name
check and `Setup`), producing the result flag, the final content of the
output buffer, and the final member state. -/
def LpWriteModel (proto : MPModelProto) (st : ExporterState) :
    Bool × String × ExporterState :=
  let output1 := AppendComments proto st ("\\")
  let output2 := output1 ++ (if proto.maximize then "Maximize\n" else "Minimize\n")
  match LpObjectiveLoop proto st 0 proto.vars (lpObjInitBreaker proto)
      (List.replicate proto.vars.length lp_shows_unused_variables) with
  | none => (false, output2, st)
  | some (objBrk, sv1) =>
    let output3 := output2 ++ objBrk.GetOutput ++ "\nSubject to\n"
    match LpConstraintsLoop proto st 0 proto.constraints output3 sv1 with
    | (false, out, _) => (false, out, st)
    | (true, out, sv2) =>
      let out4 := out ++ "Bounds\n" ++
        (if !(xeq proto.objective_offset (.fin 0)) then
          " 1 <= Constant <= 1\n" else "")
      let out5 := out4 ++ LpBoundsSection st 0 proto.vars sv2
      let out6 := out5 ++
        (if 0 < st.num_binary_variables then
          "Binaries\n" ++ LpBinariesSection st 0 proto.vars sv2 else "")
      let out7 := out6 ++
        (if 0 < st.num_integer_variables then
          "Generals\n" ++ LpGeneralsSection st 0 proto.vars sv2 else "")
      (true, out7 ++ "End\n", st)

/-- `MPModelProtoExporter::ExportModelAsLpFormat`: the result flag, the final
content of the caller's output buffer (`output0` on the early name-validity
failure, since the buffer is cleared only later), and the final state. -/
def ExportModelAsLpFormat (proto : MPModelProto) (st0 : ExporterState)
    (obfuscated : Bool) (output0 : String) : Bool × String × ExporterState :=
  if !obfuscated && !CheckAllNamesValidity proto st0 then (false, output0, st0)
  else
    let stA := if st0.setup_done then st0 else Setup proto st0
    let st := { stA with setup_done := true, use_obfuscated_names := obfuscated }
    LpWriteModel proto st

/-! ### MPS-format writer -/

/-- The precision-shrinking loop of `AppendMpsPair` in fixed format: reduce
the `%G` precision digit by digit until the value fits in 12 characters
(fuel-bounded from precision 12 down to 0). -/
def fixedMpsValueGo (x : XRat) : Nat → Nat → String
  | prec, 0 => formatG prec x
  | prec, fuel+1 =>
    let value_str := formatG prec x
    if 12 < value_str.data.length then fixedMpsValueGo x (prec - 1) fuel
    else value_str

/-- The value field of `AppendMpsPair` in fixed format. -/
def fixedMpsValue (x : XRat) : String := fixedMpsValueGo x 12 12

/-- `MPModelProtoExporter::AppendMpsPair`. -/
def AppendMpsPair (st : ExporterState) (name : String) (value : XRat) : String :=
  if st.use_fixed_mps_format then
    "  " ++ padRight 8 name ++ "  " ++ padLeft 12 (fixedMpsValue value) ++ " "
  else
    "  " ++ padRight 16 name ++ "  " ++ padLeft 21 (formatG 16 value) ++ " "

/-- `MPModelProtoExporter::AppendMpsLineHeader`. -/
def AppendMpsLineHeader (st : ExporterState) (id name : String) : String :=
  if st.use_fixed_mps_format then " " ++ padRight 2 id ++ " " ++ padRight 8 name
  else " " ++ padRight 2 id ++ "  " ++ padRight 16 name

/-- `MPModelProtoExporter::AppendMpsLineHeaderWithNewLine`. -/
def AppendMpsLineHeaderWithNewLine (st : ExporterState) (id name : String) :
    String :=
  AppendMpsLineHeader st id name ++ "\n"

/-- `MPModelProtoExporter::AppendNewLineIfTwoColumns`: the two-column toggle
`current_mps_column_` is threaded explicitly; returns the text with the
possible line break appended, and the new column counter. -/
def AppendNewLineIfTwoColumns (current_mps_column : Nat) (s : String) :
    String × Nat :=
  if current_mps_column + 1 = 2 then (s ++ "\n", 0)
  else (s, current_mps_column + 1)

/-- `MPModelProtoExporter::AppendMpsTermWithContext`. -/
def AppendMpsTermWithContext (st : ExporterState) (current_mps_column : Nat)
    (head_name name : String) (value : XRat) : String × Nat :=
  AppendNewLineIfTwoColumns current_mps_column
    ((if current_mps_column = 0 then AppendMpsLineHeader st ("") head_name
      else "") ++ AppendMpsPair st name value)

/-- `MPModelProtoExporter::AppendMpsBound`. -/
def AppendMpsBound (st : ExporterState) (bound_type name : String)
    (value : XRat) : String :=
  AppendMpsLineHeader st bound_type ("BOUND") ++ AppendMpsPair st name value ++ "\n"

/-- `MPModelProtoExporter::CanUseFixedMpsFormat`: under obfuscation, both
digit widths must be strictly below the 8-character field size; otherwise
every declared (raw) name must be at most 8 characters. -/
def CanUseFixedMpsFormat (proto : MPModelProto) (st : ExporterState) : Bool :=
  if st.use_obfuscated_names then
    decide (st.num_digits_for_constraints < 8) &&
      decide (st.num_digits_for_variables < 8)
  else
    proto.constraints.all (fun ct => decide ((ct.name.getD ("")).data.length ≤ 8)) &&
      proto.vars.all (fun v => decide ((v.name.getD ("")).data.length ≤ 8))

/-- One `ROWS` entry (lines 497-505): `E` for equal bounds, `L` when the
lower bound is infinite, `G` otherwise. -/
def MpsRowsEntry (st : ExporterState) (cst_name : String) (lb ub : XRat) :
    String :=
  if xeq lb ub then AppendMpsLineHeaderWithNewLine st ("E") cst_name
  else if xeq lb .ninf then AppendMpsLineHeaderWithNewLine st ("L") cst_name
  else AppendMpsLineHeaderWithNewLine st ("G") cst_name

/-- The `ROWS` section constraint loop. -/
def MpsRowsLoop (st : ExporterState) : Nat → List MPConstraintProto → String
  | _, [] => ""
  | i, ct :: rest =>
    MpsRowsEntry st (GetConstraintName st i ct) ct.lower_bound ct.upper_bound ++
      MpsRowsLoop st (i+1) rest

/-- The inner loop of the transpose construction (lines 517-528): the range
check on `var_index` precedes the zero-coefficient filter. -/
def BuildTransposeTerms (nvars : Nat) (cst_index : Nat) :
    List (Int × XRat) → List (List (Nat × XRat)) →
    Option (List (List (Nat × XRat)))
  | [], transpose => some transpose
  | (vi, coeff) :: rest, transpose =>
    if vi < 0 ∨ (nvars : Int) ≤ vi then none
    else BuildTransposeTerms nvars cst_index rest
      (if !(xeq coeff (.fin 0)) then
        transpose.set vi.toNat (transpose.getD vi.toNat [] ++ [(cst_index, coeff)])
      else transpose)

/-- The transpose construction over all constraints (lines 514-529). -/
def BuildTranspose (nvars : Nat) :
    Nat → List MPConstraintProto → List (List (Nat × XRat)) →
    Option (List (List (Nat × XRat)))
  | _, [], transpose => some transpose
  | i, ct :: rest, transpose =>
    match BuildTransposeTerms nvars i ct.terms transpose with
    | none => none
    | some transpose2 => BuildTranspose nvars (i+1) rest transpose2

/-- The per-variable constraint-coefficient loop of `AppendMpsColumns`. -/
def MpsColumnTermsLoop (proto : MPModelProto) (st : ExporterState)
    (var_name : String) : List (Nat × XRat) → String → Nat → String × Nat
  | [], out, col => (out, col)
  | (ci, coeff) :: rest, out, col =>
    let fc := AppendMpsTermWithContext st col var_name
      (GetConstraintNameIdx proto st ci) coeff
    MpsColumnTermsLoop proto st var_name rest (out ++ fc.1) fc.2

/-- `MPModelProtoExporter::AppendMpsColumns` (loop body; the column counter
is reset to 0 for each variable, as in the source). -/
def AppendMpsColumnsLoop (proto : MPModelProto) (st : ExporterState)
    (integrality : Bool) (transpose : List (List (Nat × XRat))) :
    Nat → List MPVariableProto → String
  | _, [] => ""
  | i, v :: rest =>
    (if v.is_integer == integrality then
      let var_name := GetVariableName st i v
      let f1 :=
        if !(xeq v.objective_coefficient (.fin 0)) then
          AppendMpsTermWithContext st 0 var_name ("COST") v.objective_coefficient
        else (("", 0) : String × Nat)
      let f2 := MpsColumnTermsLoop proto st var_name (transpose.getD i []) f1.1 f1.2
      f2.1 ++ (AppendNewLineIfTwoColumns f2.2 ("")).1
    else "") ++ AppendMpsColumnsLoop proto st integrality transpose (i+1) rest

/-- `MPModelProtoExporter::AppendMpsColumns`. -/
def AppendMpsColumns (proto : MPModelProto) (st : ExporterState)
    (integrality : Bool) (transpose : List (List (Nat × XRat))) : String :=
  AppendMpsColumnsLoop proto st integrality transpose 0 proto.vars

/-- The bound a constraint's `RHS` entry carries (lines 554-558): the lower
bound when finite, else the upper bound when finite, else nothing. -/
def MpsRhsValue (lb ub : XRat) : Option XRat :=
  if !(xeq lb .ninf) then some lb
  else if !(xeq ub .inf) then some ub
  else none

/-- The `RHS` section constraint loop. -/
def MpsRhsLoop (st : ExporterState) :
    Nat → List MPConstraintProto → String → Nat → String × Nat
  | _, [], out, col => (out, col)
  | i, ct :: rest, out, col =>
    match MpsRhsValue ct.lower_bound ct.upper_bound with
    | none => MpsRhsLoop st (i+1) rest out col
    | some v =>
      let fc := AppendMpsTermWithContext st col ("RHS")
        (GetConstraintName st i ct) v
      MpsRhsLoop st (i+1) rest (out ++ fc.1) fc.2

/-- The `RANGES` entry value of a constraint (lines 570-571): `|ub - lb|`,
emitted when it is neither `0` nor `+inf`. -/
def MpsRangesValue (lb ub : XRat) : Option XRat :=
  let range := xabs (xsub ub lb)
  if !(xeq range (.fin 0)) && !(xeq range .inf) then some range else none

/-- The `RANGES` section constraint loop. -/
def MpsRangesLoop (st : ExporterState) :
    Nat → List MPConstraintProto → String → Nat → String × Nat
  | _, [], out, col => (out, col)
  | i, ct :: rest, out, col =>
    match MpsRangesValue ct.lower_bound ct.upper_bound with
    | none => MpsRangesLoop st (i+1) rest out col
    | some v =>
      let fc := AppendMpsTermWithContext st col ("RANGE")
        (GetConstraintName st i ct) v
      MpsRangesLoop st (i+1) rest (out ++ fc.1) fc.2

/-- The `BOUNDS` section rows of one variable (lines 585-620): the bound-type
decision table (`BV`; `LI`/`UI` for integers; `FR`/`FX`/`LO`/`PL`/`UP` for
continuous variables). -/
def MpsBoundsEntry (st : ExporterState) (var_name : String)
    (v : MPVariableProto) : String :=
  let lb := v.lower_bound
  let ub := v.upper_bound
  if v.is_integer then
    if IsBoolean v then
      AppendMpsLineHeader st ("BV") ("BOUND") ++ "  " ++ var_name ++ "\n"
    else
      (if !(xeq lb (.fin 0)) then AppendMpsBound st ("LI") var_name lb else "") ++
      (if !(xeq ub .inf) then AppendMpsBound st ("UI") var_name ub else "")
  else
    if xeq lb .ninf && xeq ub .inf then
      AppendMpsLineHeader st ("FR") ("BOUND") ++ "  " ++ var_name ++ "\n"
    else if xeq lb ub then
      AppendMpsBound st ("FX") var_name lb
    else
      (if !(xeq lb (.fin 0)) then AppendMpsBound st ("LO") var_name lb
       else if xeq ub .inf then
        AppendMpsLineHeader st ("PL") ("BOUND") ++ "  " ++ var_name ++ "\n"
       else "") ++
      (if !(xeq ub .inf) then AppendMpsBound st ("UP") var_name ub else "")

/-- The `BOUNDS` section variable loop. -/
def MpsBoundsLoop (st : ExporterState) : Nat → List MPVariableProto → String
  | _, [] => ""
  | i, v :: rest =>
    MpsBoundsEntry st (GetVariableName st i v) v ++ MpsBoundsLoop st (i+1) rest

/-- The rendering body of `ExportModelAsMpsFormat` (everything after the name
check, `Setup` and the fixed-format decision). -/
def MpsWriteModel (proto : MPModelProto) (st : ExporterState) :
    Bool × String × ExporterState :=
  let output1 := AppendComments proto st ("*")
  let output2 := output1 ++ padRight 14 ("NAME") ++ proto.name.getD ("") ++ "\n"
  let rows_section :=
    AppendMpsLineHeaderWithNewLine st ("N") ("COST") ++
      MpsRowsLoop st 0 proto.constraints
  let output3 := output2 ++
    (if rows_section = "" then "" else "ROWS\n" ++ rows_section)
  match BuildTranspose proto.vars.length 0 proto.constraints
      (List.replicate proto.vars.length []) with
  | none => (false, output3, { st with current_mps_column := 0 })
  | some transpose =>
    let int_cols := AppendMpsColumns proto st true transpose
    let columns_marked :=
      if int_cols = "" then "" else
        "  " ++ padRight 10 ("INTSTART") ++ padRight 36 ("'MARKER'") ++
          padRight 10 ("'INTORG'") ++ "\n" ++ int_cols ++
        "  " ++ padRight 10 ("INTEND") ++ padRight 36 ("'MARKER'") ++
          padRight 10 ("'INTEND'") ++ "\n"
    let columns_section := columns_marked ++ AppendMpsColumns proto st false transpose
    let output4 := output3 ++
      (if columns_section = "" then "" else "COLUMNS\n" ++ columns_section)
    let rhsf := MpsRhsLoop st 0 proto.constraints ("") 0
    let rhs_section := rhsf.1 ++ (AppendNewLineIfTwoColumns rhsf.2 ("")).1
    let output5 := output4 ++
      (if rhs_section = "" then "" else "RHS\n" ++ rhs_section)
    let rangesf := MpsRangesLoop st 0 proto.constraints ("") 0
    let ranges_section := rangesf.1 ++ (AppendNewLineIfTwoColumns rangesf.2 ("")).1
    let output6 := output5 ++
      (if ranges_section = "" then "" else "RANGES\n" ++ ranges_section)
    let bounds_section := MpsBoundsLoop st 0 proto.vars
    let output7 := output6 ++
      (if bounds_section = "" then "" else "BOUNDS\n" ++ bounds_section)
    (true, output7 ++ "ENDATA\n", { st with current_mps_column := 0 })

/-- `MPModelProtoExporter::ExportModelAsMpsFormat`. -/
def ExportModelAsMpsFormat (proto : MPModelProto) (st0 : ExporterState)
    (fixed_format obfuscated : Bool) (output0 : String) :
    Bool × String × ExporterState :=
  if !obfuscated && !CheckAllNamesValidity proto st0 then (false, output0, st0)
  else
    let stA := if st0.setup_done then st0 else Setup proto st0
    let stB := { stA with
      setup_done := true
      use_obfuscated_names := obfuscated
      use_fixed_mps_format := fixed_format }
    let st :=
      if fixed_format && !CanUseFixedMpsFormat proto stB then
        { stB with use_fixed_mps_format := false }
      else stB
    MpsWriteModel proto st

/-- All sparse-row variable references of the model are in range
(Boolean form of the invariant both exporters enforce). -/
def refsInRangeBool (proto : MPModelProto) : Bool :=
  proto.constraints.all (fun ct => ct.terms.all
    (fun p => decide (0 ≤ p.1) && decide (p.1 < (proto.vars.length : Int))))

/-! ### Line-level views of the output text (for the LineBreaker claims) -/

/-- Number of newline characters in a string (= number of emitted line
breaks; a text of `k` newlines has `k+1` physical lines, the last possibly
empty). -/
def newlineCount (s : String) : Nat := s.data.count '\n'

/-- One step of the line splitter: start a new line at `'\n'`, otherwise
prepend the character to the current first line. -/
def lineStep (c : Char) (acc : List (List Char)) : List (List Char) :=
  if c = '\n' then [] :: acc
  else match acc with
    | [] => [[c]]
    | g :: gs => (c :: g) :: gs

/-- Split a string into its physical lines (at `'\n'`, separators dropped). -/
def splitLines (s : String) : List String :=
  (s.data.foldr lineStep [[]]).map String.mk

/-- The lengths of the physical lines of a string. -/
def lineLengths (s : String) : List Nat :=
  (splitLines s).map (fun l => l.data.length)

/-- Sum of the character lengths of a group of tokens. -/
def sumLen (g : List String) : Nat := (g.map (fun s => s.data.length)).sum

/-- The grouping of appended tokens into lines that `LineBreaker::Append`'s
accounting produces: running count `ls`, current line `cur`, breaking exactly
when the count would exceed `max`. -/
def buildGroups (max : Nat) : Nat → List String → List String → List (List String)
  | _, cur, [] => [cur]
  | ls, cur, s :: rest =>
    if max < ls + s.data.length then
      cur :: buildGroups max s.data.length [s] rest
    else buildGroups max (ls + s.data.length) (cur ++ [s]) rest

/-- Concatenation of a group of tokens, in order, with nothing inserted. -/
def joinToks : List String → String
  | [] => ""
  | s :: rest => s ++ joinToks rest

/-- Render the continuation lines of a grouping: each group becomes a line
break (newline plus one leading space) followed by its tokens in order. -/
def renderCont : List (List String) → String
  | [] => ""
  | g :: gs => "\n " ++ joinToks g ++ renderCont gs

/-- Render a grouping whose first group extends the already-emitted tokens
`cur`: the new tokens of the first group, then the continuation lines. -/
def renderFrom (cur : List String) : List (List String) → String
  | [] => ""
  | g :: gs => joinToks (g.drop cur.length) ++ renderCont gs

/-- The last group of a grouping (the line still being assembled). -/
def lastGroup : List (List String) → List String
  | [] => []
  | [g] => g
  | _ :: g :: gs => lastGroup (g :: gs)

/-! ### Concrete example models used by witnesses and counterexamples -/

/-- A continuous variable fixed at `[0, 1]` with no name. -/
def exVar01 : MPVariableProto :=
  ⟨none, .fin 0, .fin 1, false, .fin 0⟩

/-- A model whose only constraint references the out-of-range variable
index `5` with coefficient `1`. -/
def exOorModel : MPModelProto :=
  ⟨none, false, .fin 0, [exVar01], [⟨none, .fin 0, .fin 1, [(5, .fin 1)]⟩]⟩

/-- A model whose only constraint references the in-range variable index `0`
with coefficient `0`, and index `5` (out of range) also with coefficient `0`. -/
def exZeroCoeffOorModel : MPModelProto :=
  ⟨none, false, .fin 0, [exVar01],
    [⟨none, .fin 0, .fin 1, [(0, .fin 0), (5, .fin 0)]⟩]⟩

/-- A well-formed named model: one continuous variable `x` in `[0, 4]` with
objective coefficient `1`, one ranged constraint `c` with bounds `[2, 7]`. -/
def exGoodModel : MPModelProto :=
  ⟨some "m", false, .fin 0,
    [⟨some "x", .fin 0, .fin 4, false, .fin 1⟩],
    [⟨some "c", .fin 2, .fin 7, [(0, .fin 1)]⟩]⟩

/-- The empty model. -/
def exEmptyModel : MPModelProto :=
  ⟨none, false, .fin 0, [], []⟩

/-- A model with ten million unnamed variables (index digit width 8). -/
def exBigModel : MPModelProto :=
  ⟨none, false, .fin 0, List.replicate 10000000 exVar01, []⟩

/-- Declared-name validity: every explicitly named variable and constraint
has a valid name (unnamed entities always render as valid synthetic names
under any bounded digit width). -/
def namedNamesOk (proto : MPModelProto) : Bool :=
  proto.vars.all (fun v => match v.name with
    | some n => CheckNameValidity n
    | none => true) &&
  proto.constraints.all (fun ct => match ct.name with
    | some n => CheckNameValidity n
    | none => true)

/-- The exporter state in effect when the LP writer runs on a fresh
exporter: setup just performed and the flags installed. -/
def lpSetupState (proto : MPModelProto) (obf : Bool) : ExporterState :=
  { Setup proto initState with
    setup_done := true
    use_obfuscated_names := obf }

/-- The exporter state after `Setup` and flag installation in
`ExportModelAsMpsFormat`, before the fixed-format admissibility check. -/
def mpsSetupState (proto : MPModelProto) (ff obf : Bool) : ExporterState :=
  { Setup proto initState with
    setup_done := true
    use_obfuscated_names := obf
    use_fixed_mps_format := ff }

/-- The exporter state the MPS writer actually runs on for a fresh
exporter (after the fixed-format fallback to free format). -/
def mpsStartState (proto : MPModelProto) (ff obf : Bool) : ExporterState :=
  if ff && !CanUseFixedMpsFormat proto (mpsSetupState proto ff obf) then
    { mpsSetupState proto ff obf with use_fixed_mps_format := false }
  else mpsSetupState proto ff obf

/-! ## Lemmas about the decimal digit expansion -/

theorem natDigitsGo_congr :
    ∀ n f1 f2, n < f1 → n < f2 → natDigitsGo f1 n = natDigitsGo f2 n := by
  intro n
  induction n using Nat.strong_induction_on with
  | _ n ih =>
    intro f1 f2 h1 h2
    match f1, f2 with
    | a+1, b+1 =>
      simp only [natDigitsGo]
      by_cases h : n < 10
      · simp [h]
      · simp only [h, if_false]
        have hd : n / 10 < n := Nat.div_lt_self (by omega) (by omega)
        rw [ih (n / 10) hd a b (by omega) (by omega)]

/-- One-step unfolding of `natDigits`. -/
theorem natDigits_eq (n : Nat) : natDigits n =
    if n < 10 then [digitChar n]
    else natDigits (n / 10) ++ [digitChar (n % 10)] := by
  unfold natDigits
  conv_lhs => rw [natDigitsGo]
  by_cases h : n < 10
  · simp [h]
  · simp only [h, if_false]
    have hd : n / 10 < n := Nat.div_lt_self (by omega) (by omega)
    rw [natDigitsGo_congr (n / 10) n (n / 10 + 1) (by omega) (by omega)]

/-- Every character of the digit expansion is a decimal digit. -/
theorem mem_natDigits :
    ∀ n : Nat, ∀ c ∈ natDigits n, ∃ d, d < 10 ∧ c = digitChar d := by
  intro n
  induction n using Nat.strong_induction_on with
  | _ n ih =>
    intro c hc
    rw [natDigits_eq] at hc
    by_cases h : n < 10
    · simp [h] at hc
      exact ⟨n, h, hc⟩
    · simp [h] at hc
      rcases hc with h1 | h2
      · exact ih (n / 10) (Nat.div_lt_self (by omega) (by omega)) c h1
      · exact ⟨n % 10, Nat.mod_lt _ (by omega), h2⟩

theorem natDigits_length_pos (n : Nat) : 0 < (natDigits n).length := by
  rw [natDigits_eq]; split <;> simp

/-- Digit counts are monotone. -/
theorem natDigits_length_mono :
    ∀ n m : Nat, m ≤ n → (natDigits m).length ≤ (natDigits n).length := by
  intro n
  induction n using Nat.strong_induction_on with
  | _ n ih =>
    intro m hmn
    by_cases hm : m < 10
    · rw [natDigits_eq m]
      simp only [hm, if_true, List.length_cons, List.length_nil]
      exact natDigits_length_pos n
    · have hn : ¬ n < 10 := by omega
      rw [natDigits_eq n, natDigits_eq m]
      simp only [hn, hm, if_false, List.length_append, List.length_cons,
        List.length_nil]
      have := ih (n / 10) (Nat.div_lt_self (by omega) (by omega)) (m / 10)
        (Nat.div_le_div_right hmn)
      omega

/-! ## Lemmas about names and validity -/

theorem natToString_data (n : Nat) : (natToString n).data = natDigits n := rfl

theorem zeroPad_data (w : Nat) (s : String) :
    (zeroPad w s).data = List.replicate (w - s.data.length) '0' ++ s.data := by
  simp [zeroPad, String.data_append]

/-- `CheckNameValidity` succeeds on any name made of an allowed first
character followed by at most 254 zero-or-digit characters. -/
theorem checkNameValidity_of_data (name : String) (pre : Char) (tl : List Char)
    (hdata : name.data = pre :: tl) (hlen : tl.length ≤ 254)
    (hpre1 : kForbiddenChars.contains pre = false)
    (hpre2 : kForbiddenFirstChars.contains pre = false)
    (htl : ∀ c ∈ tl, kForbiddenChars.contains c = false) :
    CheckNameValidity name = true := by
  unfold CheckNameValidity
  rw [hdata]
  have h1 : pre ∉ kForbiddenChars := by simpa using hpre1
  have h2 : pre ∉ kForbiddenFirstChars := by simpa using hpre2
  have h3 : ∀ c ∈ tl, c ∉ kForbiddenChars := by
    intro c hc
    simpa using htl c hc
  simp [h1, h2, h3]
  constructor
  · omega
  · exact fun c hc => h3 c hc

/-- Zero-padding characters and decimal digits are never forbidden. -/
theorem digits_not_forbidden (w : Nat) (i : Nat) :
    ∀ c ∈ List.replicate w '0' ++ natDigits i,
      kForbiddenChars.contains c = false := by
  intro c hc
  rcases List.mem_append.mp hc with h | h
  · rw [List.eq_of_mem_replicate h]
    decide
  · obtain ⟨d, hd, rfl⟩ := mem_natDigits i c h
    have hdec : ∀ d < 10, kForbiddenChars.contains (digitChar d) = false := by
      decide
    exact hdec d hd

/-- Synthetic obfuscated variable names are always valid (bounded widths). -/
theorem checkNameValidity_V (w i : Nat) (hw : w ≤ 254)
    (hi : (natDigits i).length ≤ 254) :
    CheckNameValidity ("V" ++ zeroPad w (natToString i)) = true := by
  apply checkNameValidity_of_data _ 'V'
    (List.replicate (w - (natDigits i).length) '0' ++ natDigits i)
  · simp [String.data_append, zeroPad_data, natToString_data]
  · simp only [List.length_append, List.length_replicate]
    omega
  · decide
  · decide
  · exact digits_not_forbidden _ i

/-- Synthetic obfuscated constraint names are always valid (bounded widths). -/
theorem checkNameValidity_C (w i : Nat) (hw : w ≤ 254)
    (hi : (natDigits i).length ≤ 254) :
    CheckNameValidity ("C" ++ zeroPad w (natToString i)) = true := by
  apply checkNameValidity_of_data _ 'C'
    (List.replicate (w - (natDigits i).length) '0' ++ natDigits i)
  · simp [String.data_append, zeroPad_data, natToString_data]
  · simp only [List.length_append, List.length_replicate]
    omega
  · decide
  · decide
  · exact digits_not_forbidden _ i

/-! ## Claim C10 -/

/-- **C10**: for every integer, non-boolean-shaped variable with lower bound
`0` and upper bound `+inf`, the MPS `BOUNDS` section contains no row at all
for that variable: no `LI` (lower bound is 0), no `UI` (upper bound is
infinite), and no `PL`/`FR` (those apply only to continuous variables).
Such a variable is automatically non-boolean, since `floor(+inf) != 1`. -/
theorem freeIntegerVariableEmitsNoBoundsRow (st : ExporterState)
    (var_name : String) (v : MPVariableProto) (hint : v.is_integer = true)
    (hlb : v.lower_bound = .fin 0) (hub : v.upper_bound = .inf) :
    MpsBoundsEntry st var_name v = "" := by
  have hbool : IsBoolean v = false := by
    unfold IsBoolean
    rw [hub]
    simp [xfloor, xeq]
  simp [MpsBoundsEntry, hint, hlb, hub, hbool, xeq]

theorem freeIntegerVariableEmitsNoBoundsRow_witness :
    (MPVariableProto.mk none (.fin 0) .inf true (.fin 0)).is_integer = true ∧
    MpsBoundsEntry initState ("z")
      (MPVariableProto.mk none (.fin 0) .inf true (.fin 0)) = "" :=
  ⟨rfl, freeIntegerVariableEmitsNoBoundsRow initState ("z") _ rfl rfl rfl⟩

/-! ## Claim C2 -/

/-- **C2 (amended)**: for a variable with `lower_bound == upper_bound == 5`,
the MPS `BOUNDS` section (free format shown) emits exactly one `FX` row
valued `5` when the variable is *continuous*; when the variable is *integer*
it instead emits two rows, `LI` valued `5` and `UI` valued `5` (no `FX`).
The LP `Bounds` line for such a shown variable is `5 <= name <= 5` in both
cases (the integer integral-bounds form and the general numeric form render
identically for the value `5`). -/
theorem equalBoundsFiveRendering (st : ExporterState) (name : String)
    (i : Nat) (v : MPVariableProto)
    (hfree : st.use_fixed_mps_format = false)
    (hlb : v.lower_bound = .fin 5) (hub : v.upper_bound = .fin 5) :
    (v.is_integer = false →
      MpsBoundsEntry st name v =
        " FX  " ++ padRight 16 ("BOUND") ++ "  " ++ padRight 16 name ++ "  " ++
          padLeft 21 ("5") ++ " \n" ∧
      ('\n' ∉ name.data → newlineCount (MpsBoundsEntry st name v) = 1)) ∧
    (v.is_integer = true →
      MpsBoundsEntry st name v =
        " LI  " ++ padRight 16 ("BOUND") ++ "  " ++ padRight 16 name ++ "  " ++
          padLeft 21 ("5") ++ " \n" ++
        (" UI  " ++ padRight 16 ("BOUND") ++ "  " ++ padRight 16 name ++ "  " ++
          padLeft 21 ("5") ++ " \n")) ∧
    LpBoundsLine st i v = " 5 <= " ++ GetVariableName st i v ++ " <= 5\n" := by
  have hfive : formatG 16 (.fin 5) = "5" := by decide
  have hfivef : formatF0 (.fin 5) = "5" := by decide
  have hr5 : xeq (.fin 5) (xround (.fin 5)) = true := by decide
  have hfx : MpsBoundsEntry st name v =
      (if v.is_integer then
        " LI  " ++ padRight 16 ("BOUND") ++ "  " ++ padRight 16 name ++ "  " ++
          padLeft 21 ("5") ++ " \n" ++
        (" UI  " ++ padRight 16 ("BOUND") ++ "  " ++ padRight 16 name ++ "  " ++
          padLeft 21 ("5") ++ " \n")
      else
        " FX  " ++ padRight 16 ("BOUND") ++ "  " ++ padRight 16 name ++ "  " ++
          padLeft 21 ("5") ++ " \n") := by
    by_cases hint : v.is_integer
    · have hbool : IsBoolean v = false := by
        unfold IsBoolean
        rw [hlb]
        rw [show xeq (xceil (XRat.fin 5)) (XRat.fin 0) = false from by decide]
        simp
      simp only [MpsBoundsEntry, hint, hlb, hub, hbool, if_true, if_false]
      rw [show xeq (XRat.fin 5) (XRat.fin 0) = false from by decide,
        show xeq (XRat.fin 5) XRat.inf = false from by decide]
      simp only [Bool.not_false, if_true]
      apply String.ext
      simp [AppendMpsBound, AppendMpsLineHeader, AppendMpsPair, hfree,
        padRight, padLeft, String.data_append, List.append_assoc,
        List.replicate, hfive]
    · simp only [MpsBoundsEntry, hint, hlb, hub, if_false]
      rw [show xeq (XRat.fin 5) XRat.ninf = false from by decide,
        show xeq (XRat.fin 5) XRat.inf = false from by decide,
        show xeq (XRat.fin 5) (XRat.fin 5) = true from by decide]
      simp only [Bool.false_and, if_false, if_true, Bool.false_eq_true]
      apply String.ext
      simp [AppendMpsBound, AppendMpsLineHeader, AppendMpsPair, hfree,
        padRight, padLeft, String.data_append, List.append_assoc,
        List.replicate, hfive]
  refine ⟨?_, ?_, ?_⟩
  · intro hint
    have hc : MpsBoundsEntry st name v =
        " FX  " ++ padRight 16 ("BOUND") ++ "  " ++ padRight 16 name ++ "  " ++
          padLeft 21 ("5") ++ " \n" := by
      rw [hfx, hint]
      simp
    refine ⟨hc, fun hnl => ?_⟩
    rw [hc]
    have hn0 : name.data.count '\n' = 0 :=
      List.count_eq_zero_of_not_mem hnl
    have hb : ('\n' == ' ') = false := by decide
    simp [newlineCount, String.data_append, padRight, padLeft,
      List.count_append, List.count_replicate, hn0, hb]
  · intro hint
    rw [hfx, hint]
    simp
  · by_cases hint : v.is_integer
    · simp only [LpBoundsLine, hint, hlb, hub, hr5, Bool.true_and, if_true]
      apply String.ext
      simp [hfivef, String.data_append]
    · simp only [LpBoundsLine, hint, hlb, hub, Bool.false_and, if_false,
        Bool.false_eq_true]
      rw [show xeq (XRat.fin 5) XRat.ninf = false from by decide,
        show xeq (XRat.fin 5) XRat.inf = false from by decide]
      simp only [Bool.not_false, if_true]
      apply String.ext
      simp [hfive, String.data_append, List.append_assoc]

set_option maxRecDepth 4000 in
/-- **C2 counterexample**: the claim as stated requires *exactly one* `FX`
row for every variable with bounds `[5, 5]` regardless of `is_integer`; but
for an integer variable the code emits two rows (`LI` and `UI`), and no `FX`
at all. -/
theorem equalBoundsFiveFXCounterexample :
    newlineCount (MpsBoundsEntry initState ("x")
      (MPVariableProto.mk (some "x") (.fin 5) (.fin 5) true (.fin 0))) = 2 ∧
    (("FX").data.Sublist (MpsBoundsEntry initState ("x")
      (MPVariableProto.mk (some "x") (.fin 5) (.fin 5) true (.fin 0))).data
      → False) := by
  constructor
  · decide
  · decide

theorem equalBoundsFiveRendering_witness :
    initState.use_fixed_mps_format = false ∧
    ((MPVariableProto.mk (some "x") (.fin 5) (.fin 5) false (.fin 0)).is_integer
      = false →
      MpsBoundsEntry initState ("x")
        (MPVariableProto.mk (some "x") (.fin 5) (.fin 5) false (.fin 0)) =
        " FX  " ++ padRight 16 ("BOUND") ++ "  " ++ padRight 16 ("x") ++ "  " ++
          padLeft 21 ("5") ++ " \n" ∧
      ('\n' ∉ ("x").data → newlineCount (MpsBoundsEntry initState ("x")
        (MPVariableProto.mk (some "x") (.fin 5) (.fin 5) false (.fin 0))) = 1)) ∧
    ((MPVariableProto.mk (some "x") (.fin 5) (.fin 5) false (.fin 0)).is_integer
      = true →
      MpsBoundsEntry initState ("x")
        (MPVariableProto.mk (some "x") (.fin 5) (.fin 5) false (.fin 0)) =
        " LI  " ++ padRight 16 ("BOUND") ++ "  " ++ padRight 16 ("x") ++ "  " ++
          padLeft 21 ("5") ++ " \n" ++
        (" UI  " ++ padRight 16 ("BOUND") ++ "  " ++ padRight 16 ("x") ++ "  " ++
          padLeft 21 ("5") ++ " \n")) ∧
    LpBoundsLine initState 0
      (MPVariableProto.mk (some "x") (.fin 5) (.fin 5) false (.fin 0)) =
      " 5 <= " ++ GetVariableName initState 0
        (MPVariableProto.mk (some "x") (.fin 5) (.fin 5) false (.fin 0)) ++
      " <= 5\n" :=
  ⟨rfl, equalBoundsFiveRendering initState ("x") 0
    (MPVariableProto.mk (some "x") (.fin 5) (.fin 5) false (.fin 0))
    rfl rfl rfl⟩

/-! ## Claim C3 -/

/-- **C3**: a constraint with bounds `[2, 7]` is classified `G` in the MPS
`ROWS` section, carries RHS value `2`, and gets a `RANGES` entry valued
`5 = |7 - 2|`; the LP export renders it as two lines, `name_rhs: <terms> <= 7`
and `name_lhs: <terms> >= 2`, both bearing the same wrapped term list
(`brk.GetOutput`). -/
theorem rangedConstraintTwoSevenRendering (proto : MPModelProto)
    (st : ExporterState) (i : Nat) (ct : MPConstraintProto) (sv : List Bool)
    (brk : LineBreaker) (sv2 : List Bool)
    (hfree : st.use_fixed_mps_format = false)
    (hlb : ct.lower_bound = .fin 2) (hub : ct.upper_bound = .fin 7)
    (hterms : LpTermsLoop proto st ct.terms
      (LineBreaker.Consume
        { max_line_size := lp_max_line_length, line_size := 0, output := "" }
        (10 + (GetConstraintName st i ct).data.length)) sv = some (brk, sv2)) :
    MpsRowsEntry st (GetConstraintName st i ct) ct.lower_bound ct.upper_bound =
      " G   " ++ padRight 16 (GetConstraintName st i ct) ++ "\n" ∧
    MpsRhsValue ct.lower_bound ct.upper_bound = some (.fin 2) ∧
    MpsRangesValue ct.lower_bound ct.upper_bound = some (.fin 5) ∧
    LpConstraintSection proto st i ct sv = some (
      " " ++ GetConstraintName st i ct ++ "_rhs: " ++ brk.GetOutput ++
        (if !(brk.WillFit (" <= 7\n")) then "\n " else "") ++ " <= 7\n" ++
      (" " ++ GetConstraintName st i ct ++ "_lhs: " ++ brk.GetOutput ++
        (if !(brk.WillFit (" >= 2\n")) then "\n " else "") ++ " >= 2\n"),
      sv2) := by
  have e27 : xeq (XRat.fin 2) (XRat.fin 7) = false := by decide
  have e2n : xeq (XRat.fin 2) XRat.ninf = false := by decide
  have e7i : xeq (XRat.fin 7) XRat.inf = false := by decide
  have hrel7 : " <= " ++ formatG 16 (XRat.fin 7) ++ "\n" = " <= 7\n" := by
    decide
  have hrel2 : " >= " ++ formatG 16 (XRat.fin 2) ++ "\n" = " >= 2\n" := by
    decide
  refine ⟨?_, ?_, ?_, ?_⟩
  · simp only [hlb, hub, MpsRowsEntry, e27, e2n, Bool.false_eq_true, if_false,
      AppendMpsLineHeaderWithNewLine, AppendMpsLineHeader, hfree]
    apply String.ext
    simp [padRight, String.data_append, List.append_assoc, List.replicate]
  · rw [hlb, hub]; decide
  · rw [hlb, hub]; decide
  · simp only [LpConstraintSection, hterms, hlb, hub, e27, e2n, e7i,
      Bool.false_eq_true, Bool.not_false, if_false, if_true]
    rw [hrel7, hrel2]
    simp only [Option.some.injEq, Prod.mk.injEq]
    refine ⟨?_, trivial⟩
    apply String.ext
    simp [String.data_append, List.append_assoc, apply_ite String.data]

theorem rangedConstraintTwoSevenRendering_witness :
    MpsRowsEntry initState ("c") (.fin 2) (.fin 7) =
      " G   " ++ padRight 16 ("c") ++ "\n" ∧
    MpsRhsValue (.fin 2) (.fin 7) = some (.fin 2) ∧
    MpsRangesValue (.fin 2) (.fin 7) = some (.fin 5) ∧
    LpConstraintSection exGoodModel initState 0
      (MPConstraintProto.mk (some "c") (.fin 2) (.fin 7) [(0, .fin 1)])
      [false] = some (" c_rhs: +1 x  <= 7\n c_lhs: +1 x  >= 2\n", [true]) := by
  have h := rangedConstraintTwoSevenRendering exGoodModel initState 0
    (MPConstraintProto.mk (some "c") (.fin 2) (.fin 7) [(0, .fin 1)])
    [false] (LineBreaker.mk 10000 16 ("+1 x ")) [true] rfl rfl rfl (by decide)
  refine ⟨h.1, h.2.1, h.2.2.1, ?_⟩
  rw [h.2.2.2]
  decide

/-! ## Claim C9 -/

/-- **C9**: the variable-index range check is performed before the
zero-coefficient filter in both renderers.  `WriteLpTerm` fails on an
out-of-range index even when the paired coefficient is `0`; the MPS
transpose construction fails likewise; consequently both exporters fail on
a model whose only out-of-range reference carries coefficient `0`. -/
theorem zeroCoefficientOutOfRangeStillFails (proto : MPModelProto)
    (st : ExporterState) (vi : Int)
    (hoor : vi < 0 ∨ (proto.vars.length : Int) ≤ vi) :
    WriteLpTerm proto st vi (.fin 0) = none ∧
    (∀ cst_index rest transpose,
      BuildTransposeTerms proto.vars.length cst_index
        ((vi, .fin 0) :: rest) transpose = none) ∧
    (ExportModelAsLpFormat exZeroCoeffOorModel initState true "").1 = false ∧
    (∀ ff,
      (ExportModelAsMpsFormat exZeroCoeffOorModel initState ff true "").1
        = false) := by
  refine ⟨?_, ?_, by decide, ?_⟩
  · unfold WriteLpTerm
    rw [if_pos hoor]
  · intro cst_index rest transpose
    unfold BuildTransposeTerms
    rw [if_pos hoor]
  · intro ff
    cases ff
    · decide
    · decide

theorem zeroCoefficientOutOfRangeStillFails_witness :
    WriteLpTerm exZeroCoeffOorModel initState 5 (.fin 0) = none ∧
    BuildTransposeTerms exZeroCoeffOorModel.vars.length 0
      [(5, .fin 0)] [[]] = none ∧
    (ExportModelAsLpFormat exZeroCoeffOorModel initState true "").1 = false ∧
    (ExportModelAsMpsFormat exZeroCoeffOorModel initState false true "").1
      = false := by
  have h := zeroCoefficientOutOfRangeStillFails exZeroCoeffOorModel initState 5
    (by decide)
  exact ⟨h.1, h.2.1 0 [] [[]], h.2.2.1, h.2.2.2 false⟩

/-! ## Claim C5 -/

/-- Length of an obfuscated (synthetic) variable display name:
one prefix character plus the padded digit width. -/
theorem obfVarNameIdx_length (proto : MPModelProto) (st : ExporterState)
    (hobf : st.use_obfuscated_names = true) (i : Nat)
    (hi : i < proto.vars.length)
    (hd : (natDigits i).length ≤ st.num_digits_for_variables) :
    (GetVariableNameIdx proto st i).data.length =
      1 + st.num_digits_for_variables := by
  unfold GetVariableNameIdx
  rw [List.get?_eq_get hi]
  unfold GetVariableName
  rw [hobf]
  simp [String.data_append, zeroPad_data, natToString_data]
  omega

/-- Length of an obfuscated (synthetic) constraint display name. -/
theorem obfCstNameIdx_length (proto : MPModelProto) (st : ExporterState)
    (hobf : st.use_obfuscated_names = true) (j : Nat)
    (hj : j < proto.constraints.length)
    (hd : (natDigits j).length ≤ st.num_digits_for_constraints) :
    (GetConstraintNameIdx proto st j).data.length =
      1 + st.num_digits_for_constraints := by
  unfold GetConstraintNameIdx
  rw [List.get?_eq_get hj]
  unfold GetConstraintName
  rw [hobf]
  simp [String.data_append, zeroPad_data, natToString_data]
  omega

/-- Under obfuscation, `CanUseFixedMpsFormat` is the conjunction of the two
digit-width checks. -/
theorem canUseFixed_obf_iff_digits (proto : MPModelProto)
    (st0 : ExporterState) :
    (CanUseFixedMpsFormat proto
        { Setup proto st0 with use_obfuscated_names := true } = true) ↔
      ((natDigits proto.constraints.length).length < 8 ∧
       (natDigits proto.vars.length).length < 8) := by
  simp [CanUseFixedMpsFormat, Setup, natToString]

/-- **C5 (amended)**: under obfuscation (after `Setup`), the fixed-format
check succeeds iff both synthetic-name digit widths are strictly below the
8-character MPS field size — equivalently, iff every rendered synthetic
display name (`V<idx>` / `C<idx>`, one prefix character plus the digit
width) is at most 8 characters.  Without obfuscation it succeeds iff every
*declared raw* name is at most 8 characters (the synthetic names used for
unnamed entities are not consulted by this check). -/
theorem canUseFixedMpsCharacterization (proto : MPModelProto)
    (st0 : ExporterState) :
    ((CanUseFixedMpsFormat proto
        { Setup proto st0 with use_obfuscated_names := true } = true) ↔
      ((natDigits proto.constraints.length).length < 8 ∧
       (natDigits proto.vars.length).length < 8)) ∧
    ((CanUseFixedMpsFormat proto
        { Setup proto st0 with use_obfuscated_names := true } = true) ↔
      ((∀ i < proto.vars.length,
        (GetVariableNameIdx proto
          { Setup proto st0 with use_obfuscated_names := true } i).data.length
          ≤ 8) ∧
       (∀ j < proto.constraints.length,
        (GetConstraintNameIdx proto
          { Setup proto st0 with use_obfuscated_names := true } j).data.length
          ≤ 8))) ∧
    ((CanUseFixedMpsFormat proto
        { Setup proto st0 with use_obfuscated_names := false } = true) ↔
      ((∀ ct ∈ proto.constraints, (ct.name.getD ("")).data.length ≤ 8) ∧
       (∀ v ∈ proto.vars, (v.name.getD ("")).data.length ≤ 8))) := by
  refine ⟨canUseFixed_obf_iff_digits proto st0, ?_, ?_⟩
  · have hwv : ({ Setup proto st0 with use_obfuscated_names := true }
        : ExporterState).num_digits_for_variables =
        (natDigits proto.vars.length).length := rfl
    have hwc : ({ Setup proto st0 with use_obfuscated_names := true }
        : ExporterState).num_digits_for_constraints =
        (natDigits proto.constraints.length).length := rfl
    constructor
    · intro h
      obtain ⟨hc, hv⟩ := (canUseFixed_obf_iff_digits proto st0).mp h
      constructor
      · intro i hi
        rw [obfVarNameIdx_length proto _ rfl i hi]
        · omega
        · rw [hwv]
          exact natDigits_length_mono proto.vars.length i (Nat.le_of_lt hi)
      · intro j hj
        rw [obfCstNameIdx_length proto _ rfl j hj]
        · omega
        · rw [hwc]
          exact natDigits_length_mono proto.constraints.length j
            (Nat.le_of_lt hj)
    · intro ⟨hvars, hcts⟩
      apply (canUseFixed_obf_iff_digits proto st0).mpr
      constructor
      · rcases Nat.eq_zero_or_pos proto.constraints.length with h0 | hpos
        · rw [h0]
          decide
        · have := hcts 0 hpos
          rw [obfCstNameIdx_length proto _ rfl 0 hpos] at this
          · omega
          · rw [hwc]
            exact natDigits_length_mono proto.constraints.length 0
              (Nat.zero_le _)
      · rcases Nat.eq_zero_or_pos proto.vars.length with h0 | hpos
        · rw [h0]
          decide
        · have := hvars 0 hpos
          rw [obfVarNameIdx_length proto _ rfl 0 hpos] at this
          · omega
          · rw [hwv]
            exact natDigits_length_mono proto.vars.length 0 (Nat.zero_le _)
  · simp [CanUseFixedMpsFormat]

/-- The variable digit width computed by `Setup`. -/
theorem setupNumDigitsVars (proto : MPModelProto) (st : ExporterState) :
    (Setup proto st).num_digits_for_variables =
      (natToString proto.vars.length).data.length := rfl

/-- `Setup` does not touch the obfuscation flag. -/
theorem setupKeepsObf (proto : MPModelProto) (st : ExporterState) :
    (Setup proto st).use_obfuscated_names = st.use_obfuscated_names := rfl

/-- With obfuscation on and a variable digit width of exactly 8, the fixed
format is refused. -/
theorem canUseFixedFalseOfWidth (proto : MPModelProto) (st : ExporterState)
    (hobf : st.use_obfuscated_names = true)
    (hnum : st.num_digits_for_variables = 8) :
    CanUseFixedMpsFormat proto st = false := by
  unfold CanUseFixedMpsFormat
  rw [hobf, hnum]
  simp

/-- **C5 counterexample**: with ten million variables and obfuscation on,
every variable index fits in 8 digits (indices go up to 9999999, 7 digits),
yet `CanUseFixedMpsFormat` (on the post-`Setup` state) returns `false`,
because it tests the *padded digit width* (8 = digit count of the variable
count) against `< 8` — the prefix character `V` leaves only 7 digit
positions in the 8-character field.  So "under obfuscation it returns true
iff every index fits in 8 digits" is false. -/
theorem canUseFixedEightDigitCounterexample :
    ¬ ((CanUseFixedMpsFormat exBigModel
        (Setup exBigModel { initState with use_obfuscated_names := true })
        = true) ↔
      (∀ i < 10000000, (natDigits i).length ≤ 8)) := by
  intro h
  have h2 : ∀ i < 10000000, (natDigits i).length ≤ 8 := by
    intro i hi
    have hm := natDigits_length_mono 9999999 i (by omega)
    have h9 : (natDigits 9999999).length = 7 := by decide
    omega
  have h3 := h.mpr h2
  have hnum : (Setup exBigModel
      { initState with use_obfuscated_names := true }).num_digits_for_variables
      = 8 := by
    rw [setupNumDigitsVars]
    rw [show exBigModel.vars.length = 10000000 from by
      show (List.replicate 10000000 exVar01).length = 10000000
      rw [List.length_replicate]]
    decide
  have h4 := canUseFixedFalseOfWidth exBigModel _ (setupKeepsObf _ _) hnum
  rw [h3] at h4
  simp at h4

/-! ## Claim C4: LineBreaker lemmas -/

theorem sumLen_append (a b : List String) :
    sumLen (a ++ b) = sumLen a + sumLen b := by
  simp [sumLen]

theorem sumLen_single (s : String) : sumLen [s] = s.data.length := by
  simp [sumLen]

theorem joinToks_data (g : List String) :
    (joinToks g).data = (g.map String.data).flatten := by
  induction g with
  | nil => rfl
  | cons s rest ih => simp [joinToks, String.data_append, ih]

theorem joinToks_length (g : List String) :
    (joinToks g).data.length = sumLen g := by
  rw [joinToks_data]
  simp [sumLen, List.length_flatten, Function.comp]
  rfl

theorem joinToks_clean (g : List String) (h : ∀ t ∈ g, '\n' ∉ t.data) :
    '\n' ∉ (joinToks g).data := by
  rw [joinToks_data]
  intro hmem
  obtain ⟨l, hl, hcl⟩ := List.mem_flatten.mp hmem
  obtain ⟨t, ht, rfl⟩ := List.mem_map.mp hl
  exact h t ht hcl

theorem renderFrom_cons (cur ext : List String) (gs : List (List String)) :
    renderFrom cur ((cur ++ ext) :: gs) = joinToks ext ++ renderCont gs := by
  rw [renderFrom]
  rw [List.drop_left]

theorem buildGroups_head :
    ∀ (toks : List String) (max ls : Nat) (cur : List String),
    ∃ ext gs, buildGroups max ls cur toks = (cur ++ ext) :: gs := by
  intro toks
  induction toks with
  | nil =>
    intro max ls cur
    exact ⟨[], [], by simp [buildGroups]⟩
  | cons s rest ih =>
    intro max ls cur
    unfold buildGroups
    by_cases h : max < ls + s.data.length
    · rw [if_pos h]
      exact ⟨[], buildGroups max s.data.length [s] rest, by simp⟩
    · rw [if_neg h]
      obtain ⟨ext, gs, hg⟩ := ih max (ls + s.data.length) (cur ++ [s])
      exact ⟨[s] ++ ext, gs, by rw [hg]; simp⟩

theorem buildGroups_flatten :
    ∀ (toks : List String) (max ls : Nat) (cur : List String),
    (buildGroups max ls cur toks).flatten = cur ++ toks := by
  intro toks
  induction toks with
  | nil =>
    intro max ls cur
    simp [buildGroups]
  | cons s rest ih =>
    intro max ls cur
    unfold buildGroups
    by_cases h : max < ls + s.data.length
    · rw [if_pos h]
      simp [List.flatten, ih]
    · rw [if_neg h]
      rw [ih]
      simp

theorem buildGroups_bound :
    ∀ (toks : List String) (max : Nat) (cur : List String),
    (sumLen cur ≤ max ∨ ∃ t, cur = [t] ∧ max < t.data.length) →
    ∀ g ∈ buildGroups max (sumLen cur) cur toks,
      sumLen g ≤ max ∨ ∃ t, g = [t] ∧ max < t.data.length := by
  intro toks
  induction toks with
  | nil =>
    intro max cur hcur g hg
    simp [buildGroups] at hg
    rw [hg]
    exact hcur
  | cons s rest ih =>
    intro max cur hcur g hg
    unfold buildGroups at hg
    by_cases h : max < sumLen cur + s.data.length
    · rw [if_pos h] at hg
      rcases List.mem_cons.mp hg with rfl | hg2
      · exact hcur
      · have hs : s.data.length = sumLen [s] := (sumLen_single s).symm
        rw [hs] at hg2
        refine ih max [s] ?_ g hg2
        by_cases hlong : s.data.length ≤ max
        · left
          rw [sumLen_single]
          exact hlong
        · right
          exact ⟨s, rfl, by omega⟩
    · rw [if_neg h] at hg
      have hs : sumLen cur + s.data.length = sumLen (cur ++ [s]) := by
        rw [sumLen_append, sumLen_single]
      rw [hs] at hg
      refine ih max (cur ++ [s]) ?_ g hg
      left
      rw [← hs]
      omega

/-- The central correspondence: feeding tokens to `LineBreaker::Append`
produces exactly the rendering of the token grouping `buildGroups` (tokens
kept whole, a break inserted only between groups), with the running count
equal to the total length of the last (current) group. -/
theorem appendAll_groups :
    ∀ (toks : List String) (b : LineBreaker) (cur : List String),
    b.line_size = sumLen cur →
    (b.AppendAll toks).output =
      b.output ++
        renderFrom cur (buildGroups b.max_line_size (sumLen cur) cur toks) ∧
    (b.AppendAll toks).line_size =
      sumLen (lastGroup (buildGroups b.max_line_size (sumLen cur) cur toks)) := by
  intro toks
  induction toks with
  | nil =>
    intro b cur hls
    refine ⟨?_, ?_⟩
    · show b.output = _
      rw [show buildGroups b.max_line_size (sumLen cur) cur [] = [cur ++ []]
        from by simp [buildGroups]]
      rw [renderFrom_cons]
      apply String.ext
      simp [renderCont, joinToks, String.data_append]
    · show b.line_size = _
      simpa [buildGroups, lastGroup] using hls
  | cons s rest ih =>
    intro b cur hls
    have hAA : b.AppendAll (s :: rest) = (b.Append s).AppendAll rest := rfl
    by_cases hbrk : b.max_line_size < sumLen cur + s.data.length
    · have happ : b.Append s =
          { b with
            line_size := s.data.length
            output := b.output ++ "\n " ++ s } := by
        simp only [LineBreaker.Append]
        rw [hls, if_pos hbrk]
      obtain ⟨h1, h2⟩ := ih (b.Append s) [s]
        (by rw [happ]; simp [sumLen_single])
      have hmax : (b.Append s).max_line_size = b.max_line_size := by rw [happ]
      have hout : (b.Append s).output = b.output ++ "\n " ++ s := by rw [happ]
      rw [hmax, sumLen_single] at h1 h2
      rw [hout] at h1
      obtain ⟨ext, gs, hg⟩ :=
        buildGroups_head rest b.max_line_size s.data.length [s]
      have hrhs : buildGroups b.max_line_size (sumLen cur) cur (s :: rest) =
          cur :: (([s] ++ ext) :: gs) := by
        unfold buildGroups
        rw [if_pos hbrk, hg]
      rw [hg] at h1 h2
      constructor
      · rw [hAA, h1, hrhs, renderFrom_cons]
        rw [show (cur : List String) :: (([s] ++ ext) :: gs) =
          (cur ++ []) :: (([s] ++ ext) :: gs) from by simp]
        rw [renderFrom_cons]
        apply String.ext
        simp [renderCont, joinToks, String.data_append]
      · rw [hAA, h2, hrhs]
        rfl
    · have happ : b.Append s =
          { b with
            line_size := sumLen cur + s.data.length
            output := b.output ++ s } := by
        simp only [LineBreaker.Append]
        rw [hls, if_neg hbrk]
      have hsum : sumLen (cur ++ [s]) = sumLen cur + s.data.length := by
        rw [sumLen_append, sumLen_single]
      obtain ⟨h1, h2⟩ := ih (b.Append s) (cur ++ [s]) (by rw [happ, hsum])
      have hmax : (b.Append s).max_line_size = b.max_line_size := by rw [happ]
      have hout : (b.Append s).output = b.output ++ s := by rw [happ]
      rw [hmax, hsum] at h1 h2
      rw [hout] at h1
      obtain ⟨ext, gs, hg⟩ := buildGroups_head rest b.max_line_size
        (sumLen cur + s.data.length) (cur ++ [s])
      have hrhs : buildGroups b.max_line_size (sumLen cur) cur (s :: rest) =
          ((cur ++ [s]) ++ ext) :: gs := by
        unfold buildGroups
        rw [if_neg hbrk, hg]
      rw [hg] at h1 h2
      constructor
      · rw [hAA, h1, hrhs, renderFrom_cons]
        rw [List.append_assoc cur [s] ext]
        rw [renderFrom_cons]
        apply String.ext
        simp [joinToks, String.data_append]
      · rw [hAA, h2, hrhs]

theorem foldr_lineStep_clean :
    ∀ (xs : List Char), '\n' ∉ xs → ∀ (h : List Char) (t : List (List Char)),
    xs.foldr lineStep (h :: t) = (xs ++ h) :: t := by
  intro xs
  induction xs with
  | nil => intro _ h t; rfl
  | cons c cs ih =>
    intro hnl h t
    have hc : ¬ (c = '\n') := by
      intro he
      exact hnl (he ▸ List.mem_cons_self c cs)
    simp only [List.foldr_cons]
    rw [ih (fun hm => hnl (List.mem_cons_of_mem _ hm))]
    simp [lineStep, hc]

theorem foldr_lineStep_renderCont :
    ∀ (gs : List (List String)), (∀ g ∈ gs, ∀ t ∈ g, '\n' ∉ t.data) →
    (renderCont gs).data.foldr lineStep [[]] =
      [] :: gs.map (fun g => ' ' :: (joinToks g).data) := by
  intro gs
  induction gs with
  | nil => intro _; rfl
  | cons g gs ih =>
    intro hcl
    have hdata : (renderCont (g :: gs)).data =
        '\n' :: (' ' :: (joinToks g).data) ++ (renderCont gs).data := by
      show (("\n " ++ joinToks g) ++ renderCont gs).data = _
      simp [String.data_append]
    rw [hdata]
    simp only [List.foldr_cons, List.foldr_append]
    rw [ih (fun g2 hg2 => hcl g2 (List.mem_cons_of_mem _ hg2))]
    rw [foldr_lineStep_clean _
      (joinToks_clean g (hcl g (List.mem_cons_self g gs)))]
    simp [lineStep]

/-- The physical lines of a rendered grouping: the first line carries the
first group's tokens; every later line is the one-space continuation indent
plus its group's tokens. -/
theorem lineLengths_render (g0 : List String) (gs : List (List String))
    (h0 : ∀ t ∈ g0, '\n' ∉ t.data)
    (hgs : ∀ g ∈ gs, ∀ t ∈ g, '\n' ∉ t.data) :
    lineLengths (joinToks g0 ++ renderCont gs) =
      sumLen g0 :: gs.map (fun g => sumLen g + 1) := by
  unfold lineLengths splitLines
  rw [String.data_append, List.foldr_append, foldr_lineStep_renderCont gs hgs]
  rw [foldr_lineStep_clean _ (joinToks_clean g0 h0)]
  simp [List.map_map, Function.comp]
  exact ⟨joinToks_length g0, fun a _ => joinToks_length a⟩

/-- **C4 (amended)**: feeding any token sequence to `LineBreaker::Append`
(fresh breaker, `max_line_length ≥ 1`, tokens without embedded newlines):
(1) the output is exactly the tokens grouped into lines with a break
(newline plus one-space indent) inserted only *between* tokens — no token is
ever split; (2) the groups partition the token sequence in order; (3) every
line's token content is at most `max` characters unless the line is a single
token longer than `max`; (4) hence every physical line is at most `max + 1`
characters (content plus the one-space continuation indent) — the line may
thus exceed `max` itself by exactly one even without an over-long token —
unless it holds a single over-long token; (5) after a break the running
count restarts at the length of the token that caused the break: it always
equals the token length of the line being assembled. -/
theorem lineBreakerWrapInvariant (max : Nat) (toks : List String)
    (hmax : 1 ≤ max) (hnl : ∀ t ∈ toks, '\n' ∉ t.data) :
    (LineBreaker.AppendAll ⟨max, 0, ""⟩ toks).output =
      renderFrom [] (buildGroups max 0 [] toks) ∧
    (buildGroups max 0 [] toks).flatten = toks ∧
    (∀ g ∈ buildGroups max 0 [] toks,
      sumLen g ≤ max ∨ ∃ t, g = [t] ∧ max < t.data.length) ∧
    lineLengths (LineBreaker.AppendAll ⟨max, 0, ""⟩ toks).output =
      sumLen ((buildGroups max 0 [] toks).headD []) ::
        (buildGroups max 0 [] toks).tail.map (fun g => sumLen g + 1) ∧
    (LineBreaker.AppendAll ⟨max, 0, ""⟩ toks).line_size =
      sumLen (lastGroup (buildGroups max 0 [] toks)) := by
  have hz : sumLen ([] : List String) = 0 := rfl
  have h := appendAll_groups toks ⟨max, 0, ""⟩ [] rfl
  rw [hz] at h
  have hflat := buildGroups_flatten toks max 0 []
  have hbound := buildGroups_bound toks max [] (Or.inl (by rw [hz]; omega))
  rw [hz] at hbound
  obtain ⟨ext, gs, hg⟩ := buildGroups_head toks max 0 []
  rw [List.nil_append] at hg
  have hout : (LineBreaker.AppendAll ⟨max, 0, ""⟩ toks).output =
      renderFrom [] (buildGroups max 0 [] toks) := by
    rw [h.1]
    apply String.ext
    simp [String.data_append]
  refine ⟨hout, by simpa using hflat, hbound, ?_, h.2⟩
  have hsub : ∀ g ∈ buildGroups max 0 [] toks, ∀ t ∈ g, t ∈ toks := by
    intro g hgmem t ht
    have : t ∈ (buildGroups max 0 [] toks).flatten :=
      List.mem_flatten.mpr ⟨g, hgmem, ht⟩
    rw [hflat] at this
    simpa using this
  rw [hout, hg]
  have hrf : renderFrom [] (ext :: gs) = joinToks ext ++ renderCont gs := by
    rw [renderFrom]
    simp
  rw [hrf]
  rw [lineLengths_render ext gs
    (fun t ht => hnl t (hsub ext (by rw [hg]; exact List.mem_cons_self _ _) t ht))
    (fun g hgm t ht => hnl t
      (hsub g (by rw [hg]; exact List.mem_cons_of_mem _ hgm) t ht))]
  rfl

/-- **C4 counterexample**: with `max_line_length = 1` and tokens `a`, `b`
(each of length 1, none exceeding the maximum), the second physical line is
`" b"` of length `2 > 1`: a line exceeds `max_line_length` although no
single token alone exceeds it, because the one-space continuation indent
emitted after a break is not counted against the limit. -/
theorem lineBreakerOverflowByOneCounterexample :
    (LineBreaker.AppendAll ⟨1, 0, ""⟩ [("a"), ("b")]).output = "a\n b" ∧
    lineLengths ((LineBreaker.AppendAll ⟨1, 0, ""⟩ [("a"), ("b")]).output) =
      [1, 2] ∧
    (∀ t ∈ [("a"), ("b")], t.data.length ≤ 1) := by
  refine ⟨by decide, by decide, by decide⟩

theorem lineBreakerWrapInvariant_witness :
    (1 ≤ 2 ∧ (∀ t ∈ [("ab"), ("c")], '\n' ∉ t.data)) ∧
    ((LineBreaker.AppendAll ⟨2, 0, ""⟩ [("ab"), ("c")]).output =
      renderFrom [] (buildGroups 2 0 [] [("ab"), ("c")]) ∧
    (buildGroups 2 0 [] [("ab"), ("c")]).flatten = [("ab"), ("c")] ∧
    (∀ g ∈ buildGroups 2 0 [] [("ab"), ("c")],
      sumLen g ≤ 2 ∨ ∃ t, g = [t] ∧ 2 < t.data.length) ∧
    lineLengths (LineBreaker.AppendAll ⟨2, 0, ""⟩ [("ab"), ("c")]).output =
      sumLen ((buildGroups 2 0 [] [("ab"), ("c")]).headD []) ::
        (buildGroups 2 0 [] [("ab"), ("c")]).tail.map (fun g => sumLen g + 1) ∧
    (LineBreaker.AppendAll ⟨2, 0, ""⟩ [("ab"), ("c")]).line_size =
      sumLen (lastGroup (buildGroups 2 0 [] [("ab"), ("c")]))) :=
  ⟨⟨by decide, by decide⟩,
    lineBreakerWrapInvariant 2 [("ab"), ("c")] (by decide) (by decide)⟩

/-! ## Success and failure of the full exporters (claims C1, C6, C7) -/

theorem ne_empty_of_data (s : String) (h : s.data ≠ []) : s ≠ "" :=
  fun he => h (by rw [he])

theorem str_append_empty (s : String) : s ++ "" = s := by
  apply String.ext
  simp [String.data_append]

theorem str_append_assoc (a b c : String) : (a ++ b) ++ c = a ++ (b ++ c) := by
  apply String.ext
  simp [String.data_append]

theorem append_ne_left (s t : String) (hs : s ≠ "") : s ++ t ≠ "" := by
  intro he
  apply hs
  have hd := congrArg String.data he
  rw [String.data_append] at hd
  exact String.ext (List.append_eq_nil.mp hd).1

theorem append_ne_right (s t : String) (ht : t ≠ "") : s ++ t ≠ "" := by
  intro he
  apply ht
  have hd := congrArg String.data he
  rw [String.data_append] at hd
  exact String.ext (List.append_eq_nil.mp hd).2

theorem appendComments_ne (proto : MPModelProto) (st : ExporterState)
    (sep : String) : AppendComments proto st sep ≠ "" := by
  unfold AppendComments
  repeat
    first
      | exact append_ne_right _ _ (by decide)
      | apply append_ne_left

theorem writeLpTerm_some (proto : MPModelProto) (st : ExporterState)
    (vi : Int) (c : XRat)
    (h : (decide (0 ≤ vi) && decide (vi < (proto.vars.length : Int))) = true) :
    ∃ term, WriteLpTerm proto st vi c = some term := by
  simp only [Bool.and_eq_true, decide_eq_true_eq] at h
  unfold WriteLpTerm
  rw [if_neg (by omega)]
  exact ⟨_, rfl⟩

theorem writeLpTerm_none (proto : MPModelProto) (st : ExporterState)
    (vi : Int) (c : XRat)
    (h : (decide (0 ≤ vi) && decide (vi < (proto.vars.length : Int))) = false) :
    WriteLpTerm proto st vi c = none := by
  simp only [Bool.and_eq_false_iff, decide_eq_false_iff_not] at h
  unfold WriteLpTerm
  rw [if_pos (by omega)]

theorem lpObjectiveLoop_some (proto : MPModelProto) (st : ExporterState) :
    ∀ (l : List MPVariableProto) (i : Nat) (brk : LineBreaker) (sv : List Bool),
    i + l.length ≤ proto.vars.length →
    ∃ r, LpObjectiveLoop proto st i l brk sv = some r := by
  intro l
  induction l with
  | nil => intro i brk sv _; exact ⟨_, rfl⟩
  | cons v rest ih =>
    intro i brk sv hb
    simp only [List.length_cons] at hb
    obtain ⟨term, hterm⟩ := writeLpTerm_some proto st (i : Int)
      v.objective_coefficient (by simp; omega)
    obtain ⟨r, hr⟩ := ih (i+1) (brk.Append term)
      (sv.set i (!(xeq v.objective_coefficient (.fin 0)) ||
        lp_shows_unused_variables)) (by omega)
    exact ⟨r, by simp only [LpObjectiveLoop, hterm]; exact hr⟩

theorem lpTermsLoop_some (proto : MPModelProto) (st : ExporterState) :
    ∀ (ts : List (Int × XRat)) (brk : LineBreaker) (sv : List Bool),
    (ts.all (fun p => decide (0 ≤ p.1) &&
      decide (p.1 < (proto.vars.length : Int)))) = true →
    ∃ r, LpTermsLoop proto st ts brk sv = some r := by
  intro ts
  induction ts with
  | nil => intro brk sv _; exact ⟨_, rfl⟩
  | cons p rest ih =>
    intro brk sv hall
    rw [List.all_cons, Bool.and_eq_true] at hall
    obtain ⟨vi, c⟩ := p
    obtain ⟨term, hterm⟩ := writeLpTerm_some proto st vi c hall.1
    obtain ⟨r, hr⟩ := ih (brk.Append term)
      (sv.set vi.toNat (!(xeq c (.fin 0)) || lp_shows_unused_variables))
      hall.2
    exact ⟨r, by simp only [LpTermsLoop, hterm]; exact hr⟩

theorem lpTermsLoop_none (proto : MPModelProto) (st : ExporterState) :
    ∀ (ts : List (Int × XRat)) (brk : LineBreaker) (sv : List Bool),
    (ts.all (fun p => decide (0 ≤ p.1) &&
      decide (p.1 < (proto.vars.length : Int)))) = false →
    LpTermsLoop proto st ts brk sv = none := by
  intro ts
  induction ts with
  | nil => intro brk sv h; simp at h
  | cons p rest ih =>
    intro brk sv hall
    rw [List.all_cons, Bool.and_eq_false_iff] at hall
    obtain ⟨vi, c⟩ := p
    rcases hall with hbad | hrest
    · have hw := writeLpTerm_none proto st vi c hbad
      simp only [LpTermsLoop, hw]
    · by_cases hfst : (decide (0 ≤ vi) &&
        decide (vi < (proto.vars.length : Int))) = true
      · obtain ⟨term, hterm⟩ := writeLpTerm_some proto st vi c hfst
        simp only [LpTermsLoop, hterm]
        exact ih _ _ hrest
      · have hw := writeLpTerm_none proto st vi c
          (Bool.eq_false_iff.mpr hfst)
        simp only [LpTermsLoop, hw]

theorem lpConstraintSection_some (proto : MPModelProto) (st : ExporterState)
    (i : Nat) (ct : MPConstraintProto) (sv : List Bool)
    (h : (ct.terms.all (fun p => decide (0 ≤ p.1) &&
      decide (p.1 < (proto.vars.length : Int)))) = true) :
    ∃ r, LpConstraintSection proto st i ct sv = some r := by
  obtain ⟨⟨brk, sv2⟩, hloop⟩ := lpTermsLoop_some proto st ct.terms
    (LineBreaker.Consume
      { max_line_size := lp_max_line_length, line_size := 0, output := "" }
      (10 + (GetConstraintName st i ct).data.length)) sv h
  simp only [LpConstraintSection]
  rw [hloop]
  dsimp only
  split
  · exact ⟨_, rfl⟩
  · exact ⟨_, rfl⟩

theorem lpConstraintSection_none (proto : MPModelProto) (st : ExporterState)
    (i : Nat) (ct : MPConstraintProto) (sv : List Bool)
    (h : (ct.terms.all (fun p => decide (0 ≤ p.1) &&
      decide (p.1 < (proto.vars.length : Int)))) = false) :
    LpConstraintSection proto st i ct sv = none := by
  simp only [LpConstraintSection]
  rw [lpTermsLoop_none proto st ct.terms _ sv h]

theorem lpConstraintsLoop_spec (proto : MPModelProto) (st : ExporterState) :
    ∀ (cl : List MPConstraintProto) (i : Nat) (out : String) (sv : List Bool),
    ∃ rest sv2, LpConstraintsLoop proto st i cl out sv =
      (cl.all (fun ct => ct.terms.all (fun p => decide (0 ≤ p.1) &&
        decide (p.1 < (proto.vars.length : Int)))), out ++ rest, sv2) := by
  intro cl
  induction cl with
  | nil =>
    intro i out sv
    exact ⟨"", sv, by simp [LpConstraintsLoop, str_append_empty]⟩
  | cons ct rest ih =>
    intro i out sv
    by_cases hct : (ct.terms.all (fun p => decide (0 ≤ p.1) &&
      decide (p.1 < (proto.vars.length : Int)))) = true
    · obtain ⟨⟨block, sv2⟩, hsec⟩ := lpConstraintSection_some proto st i ct sv hct
      obtain ⟨rest2, sv3, hloop⟩ := ih (i+1) (out ++ block) sv2
      refine ⟨block ++ rest2, sv3, ?_⟩
      simp only [LpConstraintsLoop, hsec, hloop, List.all_cons, hct,
        Bool.true_and]
      rw [str_append_assoc]
    · have hsec := lpConstraintSection_none proto st i ct sv
        (Bool.eq_false_iff.mpr hct)
      refine ⟨"", sv, ?_⟩
      simp only [LpConstraintsLoop, hsec, List.all_cons,
        Bool.eq_false_iff.mpr hct, Bool.false_and]
      rw [str_append_empty]

theorem buildTransposeTerms_some (nvars cst_index : Nat) :
    ∀ (ts : List (Int × XRat)) (tr : List (List (Nat × XRat))),
    (ts.all (fun p => decide (0 ≤ p.1) && decide (p.1 < (nvars : Int)))) = true →
    ∃ tr2, BuildTransposeTerms nvars cst_index ts tr = some tr2 := by
  intro ts
  induction ts with
  | nil => intro tr _; exact ⟨tr, rfl⟩
  | cons p rest ih =>
    intro tr hall
    rw [List.all_cons, Bool.and_eq_true] at hall
    obtain ⟨vi, c⟩ := p
    have h1 := hall.1
    simp only [Bool.and_eq_true, decide_eq_true_eq] at h1
    simp only [BuildTransposeTerms]
    rw [if_neg (by omega)]
    exact ih _ hall.2

theorem buildTransposeTerms_none (nvars cst_index : Nat) :
    ∀ (ts : List (Int × XRat)) (tr : List (List (Nat × XRat))),
    (ts.all (fun p => decide (0 ≤ p.1) && decide (p.1 < (nvars : Int)))) = false →
    BuildTransposeTerms nvars cst_index ts tr = none := by
  intro ts
  induction ts with
  | nil => intro tr h; simp at h
  | cons p rest ih =>
    intro tr hall
    rw [List.all_cons, Bool.and_eq_false_iff] at hall
    obtain ⟨vi, c⟩ := p
    simp only [BuildTransposeTerms]
    rcases hall with hbad | hrest
    · simp only [Bool.and_eq_false_iff, decide_eq_false_iff_not] at hbad
      rw [if_pos (by omega)]
    · by_cases hfst : ((vi : Int) < 0 ∨ (nvars : Int) ≤ (vi : Int))
      · rw [if_pos hfst]
      · rw [if_neg hfst]
        exact ih _ hrest

theorem buildTranspose_some (nvars : Nat) :
    ∀ (cl : List MPConstraintProto) (i : Nat) (tr : List (List (Nat × XRat))),
    (cl.all (fun ct => ct.terms.all (fun p => decide (0 ≤ p.1) &&
      decide (p.1 < (nvars : Int))))) = true →
    ∃ tr2, BuildTranspose nvars i cl tr = some tr2 := by
  intro cl
  induction cl with
  | nil => intro i tr _; exact ⟨tr, rfl⟩
  | cons ct rest ih =>
    intro i tr hall
    rw [List.all_cons, Bool.and_eq_true] at hall
    obtain ⟨tr2, h2⟩ := buildTransposeTerms_some nvars i ct.terms tr hall.1
    obtain ⟨tr3, h3⟩ := ih (i+1) tr2 hall.2
    exact ⟨tr3, by simp only [BuildTranspose, h2]; exact h3⟩

theorem buildTranspose_none (nvars : Nat) :
    ∀ (cl : List MPConstraintProto) (i : Nat) (tr : List (List (Nat × XRat))),
    (cl.all (fun ct => ct.terms.all (fun p => decide (0 ≤ p.1) &&
      decide (p.1 < (nvars : Int))))) = false →
    BuildTranspose nvars i cl tr = none := by
  intro cl
  induction cl with
  | nil => intro i tr h; simp at h
  | cons ct rest ih =>
    intro i tr hall
    rw [List.all_cons, Bool.and_eq_false_iff] at hall
    rcases hall with hbad | hrest
    · simp only [BuildTranspose,
        buildTransposeTerms_none nvars i ct.terms tr hbad]
    · by_cases hfst : (ct.terms.all (fun p => decide (0 ≤ p.1) &&
        decide (p.1 < (nvars : Int)))) = true
      · obtain ⟨tr2, h2⟩ := buildTransposeTerms_some nvars i ct.terms tr hfst
        simp only [BuildTranspose, h2]
        exact ih (i+1) tr2 hrest
      · simp only [BuildTranspose, buildTransposeTerms_none nvars i ct.terms tr
          (Bool.eq_false_iff.mpr hfst)]

/-- A successful LP rendering pass: flag `true`, text ending with the `End`
sentinel, state unchanged. -/
theorem lpWriteModel_success (proto : MPModelProto) (st : ExporterState)
    (h : refsInRangeBool proto = true) :
    ∃ p, LpWriteModel proto st = (true, p ++ "End\n", st) := by
  unfold refsInRangeBool at h
  obtain ⟨⟨objBrk, sv1⟩, hobj⟩ := lpObjectiveLoop_some proto st proto.vars 0
    (lpObjInitBreaker proto)
    (List.replicate proto.vars.length lp_shows_unused_variables) (by omega)
  obtain ⟨rest, sv2, hloop⟩ := lpConstraintsLoop_spec proto st proto.constraints
    0 (AppendComments proto st ("\\") ++
      (if proto.maximize then "Maximize\n" else "Minimize\n") ++
      objBrk.GetOutput ++ "\nSubject to\n") sv1
  rw [h] at hloop
  simp only [LpWriteModel]
  rw [hobj]
  dsimp only
  rw [hloop]
  exact ⟨_, rfl⟩

/-- A failing LP rendering pass (some reference out of range): flag `false`,
partially built non-empty output, state unchanged. -/
theorem lpWriteModel_fail (proto : MPModelProto) (st : ExporterState)
    (h : refsInRangeBool proto = false) :
    (LpWriteModel proto st).1 = false ∧
    (LpWriteModel proto st).2.1 ≠ "" ∧
    (LpWriteModel proto st).2.2 = st := by
  unfold refsInRangeBool at h
  obtain ⟨⟨objBrk, sv1⟩, hobj⟩ := lpObjectiveLoop_some proto st proto.vars 0
    (lpObjInitBreaker proto)
    (List.replicate proto.vars.length lp_shows_unused_variables) (by omega)
  obtain ⟨rest, sv2, hloop⟩ := lpConstraintsLoop_spec proto st proto.constraints
    0 (AppendComments proto st ("\\") ++
      (if proto.maximize then "Maximize\n" else "Minimize\n") ++
      objBrk.GetOutput ++ "\nSubject to\n") sv1
  rw [h] at hloop
  simp only [LpWriteModel]
  rw [hobj]
  dsimp only
  rw [hloop]
  refine ⟨rfl, ?_, rfl⟩
  apply append_ne_left
  apply append_ne_left
  apply append_ne_left
  apply append_ne_left
  exact appendComments_ne proto st ("\\")

/-- A successful MPS rendering pass: flag `true`, text ending with the
`ENDATA` sentinel, column counter reset in the final state. -/
theorem mpsWriteModel_success (proto : MPModelProto) (st : ExporterState)
    (h : refsInRangeBool proto = true) :
    ∃ p, MpsWriteModel proto st =
      (true, p ++ "ENDATA\n", { st with current_mps_column := 0 }) := by
  unfold refsInRangeBool at h
  obtain ⟨tr, htr⟩ := buildTranspose_some proto.vars.length proto.constraints 0
    (List.replicate proto.vars.length []) h
  simp only [MpsWriteModel]
  rw [htr]
  exact ⟨_, rfl⟩

/-- A failing MPS rendering pass: flag `false`, partially built non-empty
output (comments, `NAME`, `ROWS`), column counter reset. -/
theorem mpsWriteModel_fail (proto : MPModelProto) (st : ExporterState)
    (h : refsInRangeBool proto = false) :
    (MpsWriteModel proto st).1 = false ∧
    (MpsWriteModel proto st).2.1 ≠ "" ∧
    (MpsWriteModel proto st).2.2 = { st with current_mps_column := 0 } := by
  unfold refsInRangeBool at h
  have htr := buildTranspose_none proto.vars.length proto.constraints 0
    (List.replicate proto.vars.length []) h
  simp only [MpsWriteModel]
  rw [htr]
  refine ⟨rfl, ?_, rfl⟩
  apply append_ne_left
  apply append_ne_left
  apply append_ne_left
  apply append_ne_left
  exact appendComments_ne proto st ("*")

/-! ## Claim C7 -/

/-- **C7**: with the obfuscate flag on, name validation is skipped and
synthetic `V<index>`/`C<index>` names are used, so neither exporter can ever
fail because of name validity: for every model, regardless of its declared
variable and constraint names, the success flag equals exactly the
references-in-range predicate (the only remaining failure cause). -/
theorem obfuscatedExportSuccessIffRefsInRange (proto : MPModelProto)
    (ff : Bool) (output0 : String) :
    (ExportModelAsLpFormat proto initState true output0).1 =
      refsInRangeBool proto ∧
    (ExportModelAsMpsFormat proto initState ff true output0).1 =
      refsInRangeBool proto := by
  constructor
  · unfold ExportModelAsLpFormat
    simp only [Bool.not_true, Bool.false_and, Bool.false_eq_true, if_false]
    cases h : refsInRangeBool proto
    · exact (lpWriteModel_fail proto _ h).1
    · obtain ⟨p, hp⟩ := lpWriteModel_success proto _ h
      rw [hp]
  · unfold ExportModelAsMpsFormat
    simp only [Bool.not_true, Bool.false_and, Bool.false_eq_true, if_false]
    cases h : refsInRangeBool proto
    · exact (mpsWriteModel_fail proto _ h).1
    · obtain ⟨p, hp⟩ := mpsWriteModel_success proto _ h
      rw [hp]

/-! ## Claim C6 -/

/-- **C6**: for every model whose names all pass validation (or with
obfuscation on) and whose sparse rows reference only in-range variable
indices, both exporters succeed and return non-empty text whose last line is
the correct sentinel: the LP text ends with `End`, the MPS text with
`ENDATA` (each followed by the final newline). -/
theorem wellFormedExportSucceedsWithSentinel (proto : MPModelProto)
    (obf ff : Bool) (output0 : String)
    (hnames : obf = true ∨ CheckAllNamesValidity proto initState = true)
    (hrefs : refsInRangeBool proto = true) :
    ((ExportModelAsLpFormat proto initState obf output0).1 = true ∧
     (ExportModelAsLpFormat proto initState obf output0).2.1 ≠ "" ∧
     ∃ p, (ExportModelAsLpFormat proto initState obf output0).2.1 =
       p ++ "End\n") ∧
    ((ExportModelAsMpsFormat proto initState ff obf output0).1 = true ∧
     (ExportModelAsMpsFormat proto initState ff obf output0).2.1 ≠ "" ∧
     ∃ p, (ExportModelAsMpsFormat proto initState ff obf output0).2.1 =
       p ++ "ENDATA\n") := by
  have hcond : (!obf && !CheckAllNamesValidity proto initState) = false := by
    rcases hnames with h | h
    · rw [h]
      simp
    · rw [h]
      simp
  constructor
  · unfold ExportModelAsLpFormat
    rw [hcond]
    simp only [Bool.false_eq_true, if_false]
    obtain ⟨p, hp⟩ := lpWriteModel_success proto _ hrefs
    rw [hp]
    exact ⟨rfl, append_ne_right _ _ (by decide), ⟨p, rfl⟩⟩
  · unfold ExportModelAsMpsFormat
    rw [hcond]
    simp only [Bool.false_eq_true, if_false]
    obtain ⟨p, hp⟩ := mpsWriteModel_success proto _ hrefs
    rw [hp]
    exact ⟨rfl, append_ne_right _ _ (by decide), ⟨p, rfl⟩⟩

theorem wellFormedExportSucceedsWithSentinel_witness :
    (CheckAllNamesValidity exGoodModel initState = true ∧
     refsInRangeBool exGoodModel = true) ∧
    (((ExportModelAsLpFormat exGoodModel initState false "").1 = true ∧
     (ExportModelAsLpFormat exGoodModel initState false "").2.1 ≠ "" ∧
     ∃ p, (ExportModelAsLpFormat exGoodModel initState false "").2.1 =
       p ++ "End\n") ∧
    ((ExportModelAsMpsFormat exGoodModel initState false false "").1 = true ∧
     (ExportModelAsMpsFormat exGoodModel initState false false "").2.1 ≠ "" ∧
     ∃ p, (ExportModelAsMpsFormat exGoodModel initState false false "").2.1 =
       p ++ "ENDATA\n")) :=
  ⟨⟨by decide, by decide⟩,
    wellFormedExportSucceedsWithSentinel exGoodModel false false ""
      (Or.inr (by decide)) (by decide)⟩

/-! ## Claim C1 -/

/-- **C1 (amended)**: a model containing a constraint whose sparse row
references a variable index outside `[0, variable_count)` makes both
`export_as_lp` and `export_as_mps` fail (return `false`) with the
out-of-range error — but the output buffer handed back to the caller is
*not* empty: it retains the partially built text up to the failure point
(comment header and objective sense for LP; comment header, `NAME` and
`ROWS` sections for MPS), rather than being discarded. -/
theorem outOfRangeFailsButKeepsPartialOutput (proto : MPModelProto)
    (obf ff : Bool)
    (hnames : obf = true ∨ CheckAllNamesValidity proto initState = true)
    (hrefs : refsInRangeBool proto = false) :
    ((ExportModelAsLpFormat proto initState obf "").1 = false ∧
     (ExportModelAsLpFormat proto initState obf "").2.1 ≠ "") ∧
    ((ExportModelAsMpsFormat proto initState ff obf "").1 = false ∧
     (ExportModelAsMpsFormat proto initState ff obf "").2.1 ≠ "") := by
  have hcond : (!obf && !CheckAllNamesValidity proto initState) = false := by
    rcases hnames with h | h
    · rw [h]
      simp
    · rw [h]
      simp
  constructor
  · unfold ExportModelAsLpFormat
    rw [hcond]
    simp only [Bool.false_eq_true, if_false]
    exact ⟨(lpWriteModel_fail proto _ hrefs).1,
      (lpWriteModel_fail proto _ hrefs).2.1⟩
  · unfold ExportModelAsMpsFormat
    rw [hcond]
    simp only [Bool.false_eq_true, if_false]
    exact ⟨(mpsWriteModel_fail proto _ hrefs).1,
      (mpsWriteModel_fail proto _ hrefs).2.1⟩

/-- **C1 counterexample**: on a concrete model whose only constraint
references variable index `5` (out of range), both exports fail, yet the
output text handed back is *not* empty — refuting the claim that no output
is produced and any partially built text is discarded. -/
theorem outOfRangeOutputNotDiscardedCounterexample :
    (ExportModelAsLpFormat exOorModel initState true "").1 = false ∧
    (ExportModelAsLpFormat exOorModel initState true "").2.1 ≠ "" ∧
    (ExportModelAsMpsFormat exOorModel initState false true "").1 = false ∧
    (ExportModelAsMpsFormat exOorModel initState false true "").2.1 ≠ "" := by
  refine ⟨by decide, by decide, by decide, by decide⟩

theorem outOfRangeFailsButKeepsPartialOutput_witness :
    refsInRangeBool exOorModel = false ∧
    (((ExportModelAsLpFormat exOorModel initState true "").1 = false ∧
     (ExportModelAsLpFormat exOorModel initState true "").2.1 ≠ "") ∧
    ((ExportModelAsMpsFormat exOorModel initState true true "").1 = false ∧
     (ExportModelAsMpsFormat exOorModel initState true true "").2.1 ≠ "")) :=
  ⟨by decide,
    outOfRangeFailsButKeepsPartialOutput exOorModel true true
      (Or.inl rfl) (by decide)⟩

/-! ## Determinism of repeated exports (claim C8) -/

/-- Any C++ `int`-sized count has at most ten decimal digits. -/
theorem natDigits_le_ten (n : Nat) (h : n < 2147483648) :
    (natDigits n).length ≤ 10 := by
  have h10 : (natDigits 2147483647).length = 10 := by decide
  have := natDigits_length_mono 2147483647 n (by omega)
  omega

/-- The variable name check depends on the state only through the
obfuscation flag and the (bounded) digit width. -/
theorem checkVarNames_congr (st st' : ExporterState)
    (hobf : st.use_obfuscated_names = st'.use_obfuscated_names)
    (hw : st.num_digits_for_variables ≤ 254)
    (hw' : st'.num_digits_for_variables ≤ 254) :
    ∀ (i : Nat) (vs : List MPVariableProto),
      (∀ j, j < i + vs.length → (natDigits j).length ≤ 254) →
      CheckVarNames st i vs = CheckVarNames st' i vs := by
  intro i vs
  induction vs generalizing i with
  | nil => intro hdig; rfl
  | cons v rest ih =>
    intro hdig
    simp only [CheckVarNames]
    have hi : (natDigits i).length ≤ 254 := by
      apply hdig
      simp only [List.length_cons]
      omega
    have hhead : CheckNameValidity (GetVariableName st i v) =
        CheckNameValidity (GetVariableName st' i v) := by
      unfold GetVariableName
      rw [hobf]
      cases hcase : (st'.use_obfuscated_names || v.name.isNone) with
      | true =>
        rw [if_pos rfl, if_pos rfl]
        rw [checkNameValidity_V _ i hw hi]
        exact (checkNameValidity_V _ i hw' hi).symm
      | false =>
        rw [if_neg (by decide), if_neg (by decide)]
    rw [hhead, ih (i + 1) (fun j hj => by
      apply hdig
      simp only [List.length_cons]
      omega)]

/-- The constraint name check depends on the state only through the
obfuscation flag and the (bounded) digit width. -/
theorem checkCstNames_congr (st st' : ExporterState)
    (hobf : st.use_obfuscated_names = st'.use_obfuscated_names)
    (hw : st.num_digits_for_constraints ≤ 254)
    (hw' : st'.num_digits_for_constraints ≤ 254) :
    ∀ (i : Nat) (cs : List MPConstraintProto),
      (∀ j, j < i + cs.length → (natDigits j).length ≤ 254) →
      CheckCstNames st i cs = CheckCstNames st' i cs := by
  intro i cs
  induction cs generalizing i with
  | nil => intro hdig; rfl
  | cons ct rest ih =>
    intro hdig
    simp only [CheckCstNames]
    have hi : (natDigits i).length ≤ 254 := by
      apply hdig
      simp only [List.length_cons]
      omega
    have hhead : CheckNameValidity (GetConstraintName st i ct) =
        CheckNameValidity (GetConstraintName st' i ct) := by
      unfold GetConstraintName
      rw [hobf]
      cases hcase : (st'.use_obfuscated_names || ct.name.isNone) with
      | true =>
        rw [if_pos rfl, if_pos rfl]
        rw [checkNameValidity_C _ i hw hi]
        exact (checkNameValidity_C _ i hw' hi).symm
      | false =>
        rw [if_neg (by decide), if_neg (by decide)]
    rw [hhead, ih (i + 1) (fun j hj => by
      apply hdig
      simp only [List.length_cons]
      omega)]

/-- For models of C++ `int`-sized dimensions, the whole-model name check
gives the same verdict in any two states with the same obfuscation flag and
bounded digit widths. -/
theorem checkAllNames_congr (proto : MPModelProto) (st st' : ExporterState)
    (hobf : st.use_obfuscated_names = st'.use_obfuscated_names)
    (hwv : st.num_digits_for_variables ≤ 254)
    (hwv' : st'.num_digits_for_variables ≤ 254)
    (hwc : st.num_digits_for_constraints ≤ 254)
    (hwc' : st'.num_digits_for_constraints ≤ 254)
    (hv : proto.vars.length < 2147483648)
    (hc : proto.constraints.length < 2147483648) :
    CheckAllNamesValidity proto st = CheckAllNamesValidity proto st' := by
  unfold CheckAllNamesValidity
  rw [checkVarNames_congr st st' hobf hwv hwv' 0 proto.vars (fun j hj => by
    have := natDigits_le_ten j (by omega)
    omega)]
  rw [checkCstNames_congr st st' hobf hwc hwc' 0 proto.constraints
    (fun j hj => by
      have := natDigits_le_ten j (by omega)
      omega)]

/-- The LP writer hands its input state back unchanged. -/
theorem lpWriteModel_state (proto : MPModelProto) (st : ExporterState) :
    (LpWriteModel proto st).2.2 = st := by
  cases h : refsInRangeBool proto
  · exact (lpWriteModel_fail proto st h).2.2
  · obtain ⟨p, hp⟩ := lpWriteModel_success proto st h
    rw [hp]

/-- The MPS writer hands back its input state with the column counter
reset to zero. -/
theorem mpsWriteModel_state (proto : MPModelProto) (st : ExporterState) :
    (MpsWriteModel proto st).2.2 = { st with current_mps_column := 0 } := by
  cases h : refsInRangeBool proto
  · exact (mpsWriteModel_fail proto st h).2.2
  · obtain ⟨p, hp⟩ := mpsWriteModel_success proto st h
    rw [hp]

/-- The MPS start state already has a zero column counter. -/
theorem mpsStartState_col_eta (proto : MPModelProto) (ff obf : Bool) :
    ({ mpsStartState proto ff obf with current_mps_column := 0 } :
      ExporterState) = mpsStartState proto ff obf := by
  unfold mpsStartState mpsSetupState
  split <;> rfl

/-- Re-installing the flags on the MPS start state recovers the
post-`Setup` state (undoing a possible fixed-format downgrade). -/
theorem mpsStartState_reinstall (proto : MPModelProto) (ff obf : Bool) :
    ({ mpsStartState proto ff obf with
      setup_done := true
      use_obfuscated_names := obf
      use_fixed_mps_format := ff } : ExporterState) =
    mpsSetupState proto ff obf := by
  unfold mpsStartState
  split <;> rfl

/-- Re-installing the flags with free format forced on the MPS start
state. -/
theorem mpsStartState_reinstall_free (proto : MPModelProto) (ff obf : Bool) :
    ({ mpsStartState proto ff obf with
      setup_done := true
      use_obfuscated_names := obf
      use_fixed_mps_format := false } : ExporterState) =
    { mpsSetupState proto ff obf with use_fixed_mps_format := false } := by
  unfold mpsStartState
  split <;> rfl

theorem mpsStartState_setup_done (proto : MPModelProto) (ff obf : Bool) :
    (mpsStartState proto ff obf).setup_done = true := by
  unfold mpsStartState mpsSetupState
  split <;> rfl

theorem mpsStartState_obf (proto : MPModelProto) (ff obf : Bool) :
    (mpsStartState proto ff obf).use_obfuscated_names = obf := by
  unfold mpsStartState mpsSetupState
  split <;> rfl

theorem mpsStartState_digits_v (proto : MPModelProto) (ff obf : Bool) :
    (mpsStartState proto ff obf).num_digits_for_variables =
      (natDigits proto.vars.length).length := by
  unfold mpsStartState mpsSetupState
  split <;> rfl

theorem mpsStartState_digits_c (proto : MPModelProto) (ff obf : Bool) :
    (mpsStartState proto ff obf).num_digits_for_constraints =
      (natDigits proto.constraints.length).length := by
  unfold mpsStartState mpsSetupState
  split <;> rfl

/-- The LP export is idempotent across repeated calls on the same
exporter. -/
theorem lpExportRepeat (proto : MPModelProto) (obf : Bool) (output0 : String)
    (hv : proto.vars.length < 2147483648)
    (hc : proto.constraints.length < 2147483648) :
    ExportModelAsLpFormat proto
      (ExportModelAsLpFormat proto initState obf output0).2.2 obf output0 =
    ExportModelAsLpFormat proto initState obf output0 := by
  cases hname : (!obf && !CheckAllNamesValidity proto initState) with
  | true =>
    have hfirst : ExportModelAsLpFormat proto initState obf output0 =
        (false, output0, initState) := by
      unfold ExportModelAsLpFormat
      rw [if_pos hname]
    rw [hfirst]
    exact hfirst
  | false =>
    have hfirst : ExportModelAsLpFormat proto initState obf output0 =
        LpWriteModel proto (lpSetupState proto obf) := by
      unfold ExportModelAsLpFormat
      rw [hname]
      simp only [Bool.false_eq_true, if_false]
      rfl
    have hstate : (ExportModelAsLpFormat proto initState obf output0).2.2 =
        lpSetupState proto obf := by
      rw [hfirst, lpWriteModel_state]
    rw [hstate, hfirst]
    have hname2 :
        (!obf && !CheckAllNamesValidity proto (lpSetupState proto obf)) =
          false := by
      cases obf with
      | true => rfl
      | false =>
        have hchk : CheckAllNamesValidity proto initState = true := by
          cases h : CheckAllNamesValidity proto initState
          · rw [h] at hname
            exact absurd hname (by decide)
          · rfl
        have hcongr : CheckAllNamesValidity proto (lpSetupState proto false) =
            CheckAllNamesValidity proto initState :=
          checkAllNames_congr proto _ _ rfl
            (show (natDigits proto.vars.length).length ≤ 254 from by
              have := natDigits_le_ten proto.vars.length hv
              omega)
            (by decide)
            (show (natDigits proto.constraints.length).length ≤ 254 from by
              have := natDigits_le_ten proto.constraints.length hc
              omega)
            (by decide) hv hc
        rw [hcongr, hchk]
        decide
    unfold ExportModelAsLpFormat
    rw [hname2]
    simp only [Bool.false_eq_true, if_false]
    rfl

/-- The MPS export is idempotent across repeated calls on the same
exporter. -/
theorem mpsExportRepeat (proto : MPModelProto) (ff obf : Bool)
    (output0 : String)
    (hv : proto.vars.length < 2147483648)
    (hc : proto.constraints.length < 2147483648) :
    ExportModelAsMpsFormat proto
      (ExportModelAsMpsFormat proto initState ff obf output0).2.2 ff obf
        output0 =
    ExportModelAsMpsFormat proto initState ff obf output0 := by
  cases hname : (!obf && !CheckAllNamesValidity proto initState) with
  | true =>
    have hfirst : ExportModelAsMpsFormat proto initState ff obf output0 =
        (false, output0, initState) := by
      unfold ExportModelAsMpsFormat
      rw [if_pos hname]
    rw [hfirst]
    exact hfirst
  | false =>
    have hfirst : ExportModelAsMpsFormat proto initState ff obf output0 =
        MpsWriteModel proto (mpsStartState proto ff obf) := by
      unfold ExportModelAsMpsFormat
      rw [hname]
      simp only [Bool.false_eq_true, if_false]
      rfl
    have hstate :
        (ExportModelAsMpsFormat proto initState ff obf output0).2.2 =
          mpsStartState proto ff obf := by
      rw [hfirst, mpsWriteModel_state, mpsStartState_col_eta]
    rw [hstate, hfirst]
    have hname2 :
        (!obf && !CheckAllNamesValidity proto (mpsStartState proto ff obf)) =
          false := by
      cases obf with
      | true => rfl
      | false =>
        have hchk : CheckAllNamesValidity proto initState = true := by
          cases h : CheckAllNamesValidity proto initState
          · rw [h] at hname
            exact absurd hname (by decide)
          · rfl
        have hcongr :
            CheckAllNamesValidity proto (mpsStartState proto ff false) =
              CheckAllNamesValidity proto initState :=
          checkAllNames_congr proto _ _ (mpsStartState_obf proto ff false)
            (by
              rw [mpsStartState_digits_v]
              have := natDigits_le_ten proto.vars.length hv
              omega)
            (by decide)
            (by
              rw [mpsStartState_digits_c]
              have := natDigits_le_ten proto.constraints.length hc
              omega)
            (by decide) hv hc
        rw [hcongr, hchk]
        decide
    unfold ExportModelAsMpsFormat
    rw [hname2]
    simp only [Bool.false_eq_true, if_false]
    rw [mpsStartState_setup_done]
    rw [if_pos rfl]
    rw [mpsStartState_reinstall, mpsStartState_reinstall_free]
    rfl

/-! ## Claim C8 -/

/-- **C8**: exporting the same unchanged model twice through the same entry
point with identical flag values yields byte-identical output text (in fact
an identical flag, text and state) on both runs, including when the second
call runs on the exporter state returned by the first call and therefore
skips the already-done setup step; the model dimensions are bounded by the
C++ `int` range. -/
theorem repeatedExportIsByteIdentical (proto : MPModelProto) (obf ff : Bool)
    (output0 : String)
    (hv : proto.vars.length < 2147483648)
    (hc : proto.constraints.length < 2147483648) :
    ExportModelAsLpFormat proto
        (ExportModelAsLpFormat proto initState obf output0).2.2 obf output0 =
      ExportModelAsLpFormat proto initState obf output0 ∧
    ExportModelAsMpsFormat proto
        (ExportModelAsMpsFormat proto initState ff obf output0).2.2 ff obf
          output0 =
      ExportModelAsMpsFormat proto initState ff obf output0 :=
  ⟨lpExportRepeat proto obf output0 hv hc,
    mpsExportRepeat proto ff obf output0 hv hc⟩

theorem repeatedExportIsByteIdentical_witness :
    (exGoodModel.vars.length < 2147483648 ∧
     exGoodModel.constraints.length < 2147483648) ∧
    (ExportModelAsLpFormat exGoodModel
        (ExportModelAsLpFormat exGoodModel initState false "").2.2 false "" =
      ExportModelAsLpFormat exGoodModel initState false "" ∧
    ExportModelAsMpsFormat exGoodModel
        (ExportModelAsMpsFormat exGoodModel initState false false "").2.2
          false false "" =
      ExportModelAsMpsFormat exGoodModel initState false false "") :=
  ⟨⟨by decide, by decide⟩,
    repeatedExportIsByteIdentical exGoodModel false false ""
      (by decide) (by decide)⟩

end ModelExporter
